import Mathlib

/-! # Recipe browser (`src/App.js`, `src/helpers.js`)

A shallow embedding of the pure logic of the React recipe browser:
the servings rescale of the recipe view, the bookmark toggle of the
top-level component, the key transformer of `helpers.js`, the ingredient
line parser of the upload form, the client-side pagination of the search
results and the fetch handlers of the search and recipe views.

Conventions of the embedding.

* A React state update `setX(v)` is a pure function from the component's
  state to its next state; a handler is the composition of its updates.
* A JavaScript number is a `JSNum`: an exact rational in place of a finite
  double (no rounding, no signed zero), or `NaN`, or a signed infinity.
* A JavaScript value that may be `null` or `undefined` is an `Option`.
-/

namespace RecipeApp

/-! ## JavaScript numbers -/

/-- A JavaScript number: a finite value (an exact rational here), `NaN`,
or `Infinity` / `-Infinity` (`neg = true` for the negative one). -/
inductive JSNum where
  | fin (q : ℚ)
  | nan
  | inf (neg : Bool)
  deriving DecidableEq

namespace JSNum

/-- The JavaScript `*` on numbers. -/
def mul : JSNum → JSNum → JSNum
  | fin a, fin b => fin (a * b)
  | fin a, inf s => if a = 0 then nan else inf (xor s (decide (a < 0)))
  | inf s, fin b => if b = 0 then nan else inf (xor s (decide (b < 0)))
  | inf s, inf t => inf (xor s t)
  | nan, _ => nan
  | _, nan => nan

/-- The JavaScript `/` on numbers: a finite non-zero value over zero is an
infinity, zero over zero is `NaN`. -/
def div : JSNum → JSNum → JSNum
  | fin a, fin b =>
      if b = 0 then (if a = 0 then nan else inf (decide (a < 0))) else fin (a / b)
  | fin _, inf _ => fin 0
  | inf s, fin b => inf (xor s (decide (b < 0)))
  | inf _, inf _ => nan
  | nan, _ => nan
  | _, nan => nan

/-- An integer as a JavaScript number. -/
def ofInt (n : ℤ) : JSNum := fin (n : ℚ)

end JSNum

/-- The coercion `ToNumber` applied by an arithmetic operator to a value that
is a number or `null`: `null` becomes `0`. -/
def toNumber : Option JSNum → JSNum
  | none => JSNum.fin 0
  | some x => x

/-! ## Data model -/

/-- An ingredient of a recipe: `quantity` is a number or `null`. -/
structure Ingredient where
  quantity : Option JSNum
  unit : String
  description : String
  deriving DecidableEq

/-- A recipe object after `transformObject`: `key` is present only on
user-generated recipes; `servings` is an integer. -/
structure Recipe where
  id : String
  title : String
  publisher : String
  imageUrl : String
  sourceUrl : String
  cookingTime : JSNum
  servings : ℤ
  ingredients : List Ingredient
  key : Option String
  deriving DecidableEq

/-! ## Recipe view: servings rescale (`App.js`, `handleUpdateServings`) -/

/-- `handleUpdateServings(newServings)` of the `Recipe` component, as the
function from the held recipe to the recipe passed to `setRecipe`:
every ingredient is copied with
`quantity = (ing.quantity * newServings) / recipe.servings`, and the recipe
is copied with `servings` and `ingredients` replaced. -/
def handleUpdateServings (recipe : Recipe) (newServings : ℤ) : Recipe :=
  let ingredients := recipe.ingredients.map fun ing =>
    let quantity :=
      JSNum.div (JSNum.mul (toNumber ing.quantity) (JSNum.ofInt newServings))
        (JSNum.ofInt recipe.servings)
    { ing with quantity := some quantity }
  { recipe with servings := newServings, ingredients := ingredients }

/-! ## Top-level component: bookmark toggle (`App.js`, `handleAddBookmark`) -/

/-- `handleAddBookmark(recipe)` of `App`, as the function from the bookmark
list to the list passed to `setBookmarks`. -/
def handleAddBookmark (bookmarks : List Recipe) (recipe : Recipe) : List Recipe :=
  if bookmarks.any (fun bookmark => bookmark.id == recipe.id) then
    bookmarks.filter (fun bookmark => bookmark.id != recipe.id)
  else
    bookmarks ++ [recipe]

/-! ## Thrown values -/

/-- A value thrown by JavaScript code and received by a `catch` clause: an
`Error` object with its `name` and `message`, or a bare string (what
`reject` is called with in `wait`). -/
inductive Thrown where
  | error (name message : String)
  | str (s : String)
  deriving DecidableEq

/-- The expression `err?.name`: a string has no `name` property. -/
def Thrown.name? : Thrown → Option String
  | Thrown.error name _ => some name
  | Thrown.str _ => none

/-- The expression `err?.message`: a string has no `message` property. -/
def Thrown.message? : Thrown → Option String
  | Thrown.error _ message => some message
  | Thrown.str _ => none

/-! ## Strings

A JavaScript string is a Lean `String`, its characters a `List Char`. Case
conversion is the one of the basic Latin letters; other characters are left
as they are. -/

/-- `s.split(sep)` for a one-character separator, on the characters of `s`:
the segments between the separators, at least one segment. -/
def splitChars (sep : Char) : List Char → List (List Char)
  | [] => [[]]
  | c :: cs =>
    if c = sep then [] :: splitChars sep cs
    else
      match splitChars sep cs with
      | [] => [[c]]
      | seg :: segs => (c :: seg) :: segs

/-- `s.split(sep)` for a one-character separator. -/
def split (s : String) (sep : Char) : List String :=
  (splitChars sep s.data).map String.mk

/-- `s.toLocaleLowerCase()`. -/
def toLocaleLowerCase (s : List Char) : List Char := s.map Char.toLower

/-- `s.toUpperCase()`. -/
def toUpperCase (s : List Char) : List Char := s.map Char.toUpper

/-- `s.replace(c, rep)` for a one-character pattern `c`: the first occurrence
of `c` in `s` is replaced by `rep`. -/
def replaceFirst (c : Char) (rep : List Char) : List Char → List Char
  | [] => []
  | x :: xs => if x = c then rep ++ xs else x :: replaceFirst c rep xs

/-! ## Key transformer (`helpers.js`, `transformObject`) -/

/-- An object with string keys: its entries in the order of
`Object.entries`. The place that an integer-like key takes among the entries
of a built object is not modelled; an object is read through `Obj.get`. -/
abbrev Obj (α : Type) := List (String × α)

/-- The assignment `acc[k] = v`: the value of an existing key is replaced,
a new key is added after the others. -/
def Obj.assign {α : Type} : Obj α → String → α → Obj α
  | [], k, v => [(k, v)]
  | (k', v') :: rest, k, v =>
    if k' = k then (k', v) :: rest else (k', v') :: Obj.assign rest k v

/-- The property read `obj[k]`, `none` for `undefined`. -/
def Obj.get {α : Type} : Obj α → String → Option α
  | [], _ => none
  | (k', v') :: rest, k => if k' = k then some v' else Obj.get rest k

/-- The key computed by one step of the `reduce` of `transformObject`:
`[first, second] = key.toLocaleLowerCase().split("_")`, then
`first + (second?.replace(second[0], second[0].toUpperCase()) ?? "")`.
When `second` is the empty string, `second[0]` is `undefined` and the call
`second[0].toUpperCase()` throws a `TypeError`. -/
def transformKey (key : String) : Except Thrown String :=
  let parts := splitChars '_' (toLocaleLowerCase key.data)
  let first := parts.headD []
  match parts.tail.head? with
  | none => Except.ok (String.mk first)
  | some [] =>
    Except.error
      (Thrown.error "TypeError" "Cannot read properties of undefined (reading 'toUpperCase')")
  | some (c :: rest) =>
    Except.ok (String.mk (first ++ replaceFirst c (toUpperCase [c]) (c :: rest)))

/-- The `reduce` of `transformObject` over the entries `obj` from the
accumulator `acc`: every value is stored under its transformed key; a throw
in a step ends the call. -/
def transformFrom {α : Type} (acc : Obj α) (obj : Obj α) : Except Thrown (Obj α) :=
  obj.foldlM
    (fun acc entry => (transformKey entry.1).map fun k => Obj.assign acc k entry.2)
    acc

/-- `transformObject(obj)`: the `reduce` over `Object.entries(obj)` from the
empty object. -/
def transformObject {α : Type} (obj : Obj α) : Except Thrown (Obj α) :=
  transformFrom [] obj

/-! ## `Number` applied to a string

The conversion `StringToNumber` of the language: white space is trimmed, the
empty string is `0`, a signed decimal literal (with optional fraction and
exponent) or `Infinity`, or an unsigned binary, octal or hexadecimal literal,
has its value, and every other string is `NaN`. -/

/-- The white space and line terminator characters that `Number` trims. -/
def isStrWhiteSpaceChar (c : Char) : Bool :=
  [0x9, 0xA, 0xB, 0xC, 0xD, 0x20, 0xA0, 0x1680, 0x2028, 0x2029, 0x202F, 0x205F, 0x3000,
    0xFEFF].contains c.toNat || (0x2000 ≤ c.toNat && c.toNat ≤ 0x200A)

/-- A string without its leading and trailing white space. -/
def trimChars (s : List Char) : List Char :=
  ((s.dropWhile isStrWhiteSpaceChar).reverse.dropWhile isStrWhiteSpaceChar).reverse

/-- The value of a digit in a radix up to 16, `none` for another character. -/
def digitValue (c : Char) : Option ℕ :=
  if c.isDigit then some (c.toNat - 48)
  else if 97 ≤ c.toNat ∧ c.toNat ≤ 102 then some (c.toNat - 87)
  else if 65 ≤ c.toNat ∧ c.toNat ≤ 70 then some (c.toNat - 55)
  else none

/-- The value of a non-empty string of digits of the radix, `none` for any
other string. -/
def parseRadix (radix : ℕ) (ds : List Char) : Option ℕ :=
  if ds = [] then none
  else ds.foldlM
    (fun n d =>
      match digitValue d with
      | some v => if v < radix then some (radix * n + v) else none
      | none => none)
    0

/-- The value of a `0b`, `0o` or `0x` literal, `none` for any other string. -/
def parseNonDecimal : List Char → Option ℕ
  | '0' :: x :: ds =>
    if x = 'b' ∨ x = 'B' then parseRadix 2 ds
    else if x = 'o' ∨ x = 'O' then parseRadix 8 ds
    else if x = 'x' ∨ x = 'X' then parseRadix 16 ds
    else none
  | _ => none

/-- The value of an exponent part `e`, `e+` or `e-` followed by digits, as
the factor it stands for; `none` for any other string. -/
def parseExponent : List Char → Option ℚ
  | [] => some 1
  | e :: r =>
    if e = 'e' ∨ e = 'E' then
      match r with
      | '+' :: ds => (parseRadix 10 ds).map fun n => (10 : ℚ) ^ n
      | '-' :: ds => (parseRadix 10 ds).map fun n => (1 / 10 : ℚ) ^ n
      | ds => (parseRadix 10 ds).map fun n => (10 : ℚ) ^ n
    else none

/-- The value of an unsigned decimal literal: digits, an optional point and
fraction digits (digits on one side of the point at least), an optional
exponent part; `none` for any other string. -/
def parseUnsignedDecimal (s : List Char) : Option ℚ :=
  let intDigits := s.takeWhile Char.isDigit
  let afterInt := s.dropWhile Char.isDigit
  let fracDigits :=
    match afterInt with
    | '.' :: r => r.takeWhile Char.isDigit
    | _ => []
  let afterFrac :=
    match afterInt with
    | '.' :: r => r.dropWhile Char.isDigit
    | r => r
  if intDigits = [] ∧ fracDigits = [] then none
  else
    let intValue := (parseRadix 10 intDigits).getD 0
    let fracValue := (parseRadix 10 fracDigits).getD 0
    (parseExponent afterFrac).map fun factor =>
      ((intValue : ℚ) + (fracValue : ℚ) / (10 : ℚ) ^ fracDigits.length) * factor

/-- The number of an unsigned decimal literal or of `Infinity`, `NaN` for any
other string; `neg` is the sign read before it. -/
def signedDecimal (neg : Bool) (s : List Char) : JSNum :=
  if s = "Infinity".data then JSNum.inf neg
  else
    match parseUnsignedDecimal s with
    | some q => JSNum.fin (if neg then -q else q)
    | none => JSNum.nan

/-- The conversion `Number(s)` of a string. -/
def stringToNumber (s : String) : JSNum :=
  match trimChars s.data with
  | [] => JSNum.fin 0
  | '+' :: r => signedDecimal false r
  | '-' :: r => signedDecimal true r
  | t =>
    match parseNonDecimal t with
    | some n => JSNum.fin n
    | none => signedDecimal false t

/-! ## Upload form: ingredient lines (`App.js`, `Modal.handleSubmit`) -/

/-- `s.startsWith(p)` on the characters of the two strings. -/
def startsWithChars : List Char → List Char → Bool
  | _, [] => true
  | [], _ :: _ => false
  | c :: cs, p :: ps => c == p && startsWithChars cs ps

/-- One step of the `reduce` of `handleSubmit`: the value of a form entry is
split on `,`; with fewer than three parts the accumulator is returned as it
is, otherwise the first three parts make the object that is pushed. -/
def pushIngredient (acc : List Ingredient) (value : String) : List Ingredient :=
  let values := split value ','
  if values.length < 3 then acc
  else
    match values with
    | quantity :: unit :: description :: _ =>
      acc ++ [{ quantity := some (stringToNumber quantity), unit := unit,
                description := description }]
    | _ => acc

/-- The `ingredients` computed by `handleSubmit` from the entries of the form
object: the entries whose key starts with `ingredient`, reduced from the
empty array. -/
def parseIngredients (formObj : Obj String) : List Ingredient :=
  (formObj.filter fun entry => startsWithChars entry.1.data "ingredient".data).foldl
    (fun acc entry => pushIngredient acc entry.2) []

/-- The ingredient lines of the form: the values of the entries whose key
starts with `ingredient`, in the order of the entries. -/
def ingredientLines (formObj : Obj String) : List String :=
  (formObj.filter fun entry => startsWithChars entry.1.data "ingredient".data).map Prod.snd

/-- The object pushed for a line of at least three parts. -/
def ingredientOfLine (line : String) : Ingredient :=
  { quantity := some (stringToNumber ((split line ',').getD 0 "")),
    unit := (split line ',').getD 1 "",
    description := (split line ',').getD 2 "" }

/-- The upload form with its default values in the first three ingredient
fields and lines of fewer than three parts in the others. -/
def sampleForm : Obj String :=
  [("title", "TEST"), ("sourceUrl", "TEST"), ("image", "TEST"), ("publisher", "TEST"),
   ("cookingTime", "23"), ("servings", "23"),
   ("ingredient-1", "0.5,kg,Rice"), ("ingredient-2", "1,,Avocado"),
   ("ingredient-3", ",,salt"), ("ingredient-4", ""), ("ingredient-5", "pepper"),
   ("ingredient-6", "2,eggs")]

/-! ## Search results: pagination (`App.js`, `SearchResults`, `Paginate`)

`RESULTS_PER_PAGE` and `TIMEOUT_SEC` come from `config.js`; they are
parameters here. -/

/-- `Math.ceil(x)`. -/
def JSNum.ceil : JSNum → JSNum
  | JSNum.fin q => JSNum.fin (Int.ceil q)
  | JSNum.nan => JSNum.nan
  | JSNum.inf s => JSNum.inf s

/-- `arr.slice(start, end)` for integer arguments: a negative index counts
from the end of the array, and both indices are clamped to the array. -/
def slice {α : Type} (arr : List α) (start stop : ℤ) : List α :=
  let len : ℤ := arr.length
  let k := if start < 0 then max (len + start) 0 else min start len
  let final := if stop < 0 then max (len + stop) 0 else min stop len
  (arr.drop k.toNat).take (final - k).toNat

/-- The derived state `paginatedResults`:
`results.slice((page - 1) * RESULTS_PER_PAGE, page * RESULTS_PER_PAGE)`. -/
def paginatedResults {α : Type} (results : List α) (page : ℤ) (resultsPerPage : ℕ) : List α :=
  slice results ((page - 1) * resultsPerPage) (page * resultsPerPage)

/-- The derived state `numPages`:
`Math.ceil(results.length / RESULTS_PER_PAGE)`. -/
def numPages {α : Type} (results : List α) (resultsPerPage : ℕ) : JSNum :=
  JSNum.ceil (JSNum.div (JSNum.ofInt results.length) (JSNum.ofInt resultsPerPage))

/-- The pages of the buttons of `Paginate`: button `i` of
`Array.from({ length: numPages })` shows and sets page `i + 1`. -/
def pageButtons (numPages : ℕ) : List ℤ :=
  (List.range numPages).map fun i => (i : ℤ) + 1

/-! ## Fetch handlers (`helpers.js`, `wait`; `App.js`, `fetchData`,
`fetchRecipeData`)

A handler awaits `Promise.race([fetch(...), wait(TIMEOUT_SEC)])`. The
embedding takes what settles the race first as an input of the handler. -/

/-- The value that the promise of `wait(sec)` is rejected with: a string. -/
def wait (sec : ℕ) : Thrown :=
  Thrown.str ("Request took too long. Timeout after " ++ toString sec ++ " seconds.")

/-- A response as far as a handler reads it: `res.ok` and what `res.json()`
settles to, a throw or the part of the body that the handler reads. -/
structure Response (β : Type) where
  ok : Bool
  json : Except Thrown β

/-- What settles the race first: the `fetch` with a response, the `fetch`
with a rejection (a network failure, or an `AbortError` after
`controller.abort()`), or the timeout of `wait`. -/
inductive RaceOutcome (β : Type) where
  | fetchResolved (res : Response β)
  | fetchRejected (err : Thrown)
  | timedOut

/-- The `await Promise.race([...])`: the response, or the thrown rejection
value. -/
def awaitRace {β : Type} (timeoutSec : ℕ) : RaceOutcome β → Except Thrown (Response β)
  | RaceOutcome.fetchResolved res => Except.ok res
  | RaceOutcome.fetchRejected err => Except.error err
  | RaceOutcome.timedOut => Except.error (wait timeoutSec)

/-- The truthiness of a value that is a string or `undefined`, as tested by
`error && ...` and `!searchQuery`. -/
def truthy : Option String → Bool
  | none => false
  | some s => s != ""

/-- The state of `SearchResults`, with the `searchQuery` it receives from
`App` and clears through `setSearchQuery`. `error` is `none` when it holds
`undefined`. -/
structure SearchState (α : Type) where
  error : Option String
  isLoading : Bool
  results : List (Obj α)
  page : ℤ
  searchQuery : String

/-- The body of the `try` of `fetchData` after the first three updates: the
transformed recipes, or the value thrown. The body of the response is what
reading `data.data.recipes` gives, a throw or an array of objects. -/
def fetchDataTry {α : Type} (timeoutSec : ℕ)
    (outcome : RaceOutcome (Except Thrown (List (Obj α)))) : Except Thrown (List (Obj α)) := do
  let res ← awaitRace timeoutSec outcome
  let data ← res.json
  if !res.ok then
    throw (Thrown.error "Error" "Something went wrong with fetching data")
  let recipes ← data
  if recipes.length = 0 then
    throw (Thrown.error "Error" "No recipes found for your search query. Try again :)")
  recipes.mapM transformObject

/-- The state at the end of `fetchData` of `SearchResults`. -/
def fetchData {α : Type} (timeoutSec : ℕ) (s : SearchState α)
    (outcome : RaceOutcome (Except Thrown (List (Obj α)))) : SearchState α :=
  let s1 := { s with isLoading := true, error := some "", page := 1 }
  match fetchDataTry timeoutSec outcome with
  | Except.ok recipes => { s1 with results := recipes, isLoading := false, searchQuery := "" }
  | Except.error err =>
    if err.name? ≠ some "AbortError" then
      { s1 with searchQuery := "", error := err.message?, isLoading := false }
    else s1

/-- The effect of `SearchResults` on a change of `searchQuery`: nothing for
an empty query, `fetchData` otherwise. -/
def searchEffect {α : Type} (timeoutSec : ℕ) (s : SearchState α)
    (outcome : RaceOutcome (Except Thrown (List (Obj α)))) : SearchState α :=
  if s.searchQuery = "" then s else fetchData timeoutSec s outcome

/-- The error message is rendered: `error && <Message ... />`. -/
def SearchState.showsError {α : Type} (s : SearchState α) : Bool := truthy s.error

/-- The result list is rendered:
`!error && !isLoading && results.length > 0`. -/
def SearchState.showsResults {α : Type} (s : SearchState α) : Bool :=
  !truthy s.error && !s.isLoading && decide (s.results.length > 0)

/-- The state of the `Recipe` component, with the `recipe` object it
receives from `App` and replaces through `setRecipe`. -/
structure RecipeViewState (α : Type) where
  error : Option String
  isLoading : Bool
  recipe : Obj α

/-- The body of the `try` of `fetchRecipeData` after the first two updates.
The body of the response is what reading `data.data.recipe` gives, a throw
or an object. -/
def fetchRecipeDataTry {α : Type} (timeoutSec : ℕ)
    (outcome : RaceOutcome (Except Thrown (Obj α))) : Except Thrown (Obj α) := do
  let res ← awaitRace timeoutSec outcome
  let data ← res.json
  let recipe ← data
  transformObject recipe

/-- The state at the end of `fetchRecipeData` of `Recipe`. -/
def fetchRecipeData {α : Type} (timeoutSec : ℕ) (s : RecipeViewState α)
    (outcome : RaceOutcome (Except Thrown (Obj α))) : RecipeViewState α :=
  let s1 := { s with isLoading := true, error := some "" }
  match fetchRecipeDataTry timeoutSec outcome with
  | Except.ok recipe => { s1 with recipe := recipe, isLoading := false }
  | Except.error err => { s1 with isLoading := false, error := err.message? }

/-- The effect of `Recipe` on a change of `selectedId`: nothing when it is
`null` or empty, `fetchRecipeData` otherwise. -/
def recipeEffect {α : Type} (timeoutSec : ℕ) (selectedId : Option String)
    (s : RecipeViewState α) (outcome : RaceOutcome (Except Thrown (Obj α))) :
    RecipeViewState α :=
  if truthy selectedId then fetchRecipeData timeoutSec s outcome else s

/-- The error message is rendered: `error && <Message ... />`. -/
def RecipeViewState.showsError {α : Type} (s : RecipeViewState α) : Bool := truthy s.error

/-- A search view that shows two results of an earlier search and has
received the query `pizza`. -/
def sampleSearch : SearchState String :=
  { error := some "", isLoading := false,
    results := [[("id", "a1"), ("title", "Pasta")], [("id", "a2"), ("title", "Pie")]],
    page := 2, searchQuery := "pizza" }

/-- A recipe view that shows a recipe. -/
def sampleRecipeView : RecipeViewState String :=
  { error := some "", isLoading := false, recipe := [("id", "a1"), ("title", "Pasta")] }

/-! ## Recipe view: servings buttons (`App.js`, `Recipe`) -/

/-- The click handler of the decrease-servings button:
`if (recipe.servings > 1) handleUpdateServings(recipe.servings - 1)`. -/
def decreaseServings (recipe : Recipe) : Recipe :=
  if recipe.servings > 1 then handleUpdateServings recipe (recipe.servings - 1) else recipe

/-- The click handler of the increase-servings button:
`if (recipe.servings) handleUpdateServings(recipe.servings + 1)`; an integer
is truthy when it is not zero. -/
def increaseServings (recipe : Recipe) : Recipe :=
  if recipe.servings ≠ 0 then handleUpdateServings recipe (recipe.servings + 1) else recipe

/-- The two servings buttons. -/
inductive ServingsButton where
  | decrease
  | increase
  deriving DecidableEq

/-- One click on a servings button, on the held recipe. -/
def clickServings (recipe : Recipe) : ServingsButton → Recipe
  | ServingsButton.decrease => decreaseServings recipe
  | ServingsButton.increase => increaseServings recipe

/-- A sequence of clicks, each on the recipe that the click before it left. -/
def clickAll (recipe : Recipe) (clicks : List ServingsButton) : Recipe :=
  clicks.foldl clickServings recipe

/-! ## Search results: requests and their cancellation (`App.js`,
`SearchResults`, `useEffect`)

The effect of `SearchResults` depends on `searchQuery`: when an update
changes `searchQuery`, the cleanup of the last effect aborts its controller
and the effect runs again; an update that leaves `searchQuery` as it is runs
neither. Every event (a submit, the completion of a request) runs to its end
before the next one. -/

/-- The updates of `fetchData` before its `await`. -/
def fetchDataStart {α : Type} (s : SearchState α) : SearchState α :=
  { s with isLoading := true, error := some "", page := 1 }

/-- The updates of `fetchData` from the settling of its race to its end, on
the state `s` that the view has then. -/
def fetchDataEnd {α : Type} (timeoutSec : ℕ) (s : SearchState α)
    (outcome : RaceOutcome (Except Thrown (List (Obj α)))) : SearchState α :=
  match fetchDataTry timeoutSec outcome with
  | Except.ok recipes => { s with results := recipes, isLoading := false, searchQuery := "" }
  | Except.error err =>
    if err.name? ≠ some "AbortError" then
      { s with searchQuery := "", error := err.message?, isLoading := false }
    else s

/-- The value that a `fetch` whose signal is aborted is rejected with, and
the reading of its body too: a `DOMException` of name `AbortError`. -/
def abortError : Thrown := Thrown.error "AbortError" "signal is aborted without reason"

/-- A request issued by a run of the effect: its query, whether the
controller of that run is aborted, and whether `fetchData` has run to its
end. -/
structure SearchRequest where
  query : String
  aborted : Bool
  settled : Bool
  deriving DecidableEq

/-- The search view with the requests issued so far, oldest first, and the
index of the request that the cleanup of the last effect aborts (`none` when
that effect returned no cleanup, the query being empty). -/
structure SearchSystem (α : Type) where
  view : SearchState α
  requests : List SearchRequest
  cleanup : Option ℕ

/-- The call `controller.abort()` on the controller of request `i`. -/
def abortRequest (requests : List SearchRequest) (i : ℕ) : List SearchRequest :=
  match requests[i]? with
  | some req => requests.set i { req with aborted := true }
  | none => requests

/-- The cleanup of the last effect, when it returned one. -/
def runCleanup (requests : List SearchRequest) : Option ℕ → List SearchRequest
  | some i => abortRequest requests i
  | none => requests

/-- The view after an update to the state `view2`: with `searchQuery`
unchanged nothing else happens; otherwise the cleanup runs, and then the
effect, which returns at once for an empty query and else creates a
controller, starts `fetchData` and returns the cleanup of that controller. -/
def rerunEffect {α : Type} (sys : SearchSystem α) (view2 : SearchState α) : SearchSystem α :=
  if view2.searchQuery = sys.view.searchQuery then { sys with view := view2 }
  else
    let requests := runCleanup sys.requests sys.cleanup
    if view2.searchQuery = "" then
      { view := view2, requests := requests, cleanup := none }
    else
      { view := fetchDataStart view2,
        requests := requests ++ [{ query := view2.searchQuery, aborted := false, settled := false }],
        cleanup := some requests.length }

/-- The call `setSearchQuery(query)` of the submit handler of `Header`. -/
def submitSearch {α : Type} (query : String) (sys : SearchSystem α) : SearchSystem α :=
  rerunEffect sys { sys.view with searchQuery := query }

/-- The completion of request `i`: `fetchData` of that request runs from its
`await` to its end. The race of an aborted request settles with the
`AbortError` rejection, whatever the network delivers; the race of another
request settles with `network`. A request completes once. -/
def settleRequest {α : Type} (timeoutSec : ℕ) (sys : SearchSystem α) (i : ℕ)
    (network : RaceOutcome (Except Thrown (List (Obj α)))) : SearchSystem α :=
  match sys.requests[i]? with
  | none => sys
  | some req =>
    if req.settled then sys
    else
      let outcome := if req.aborted then RaceOutcome.fetchRejected abortError else network
      rerunEffect { sys with requests := sys.requests.set i { req with settled := true } }
        (fetchDataEnd timeoutSec sys.view outcome)

/-- A sequence of completions, each given by the index of its request and
what the network delivers for it. -/
def runCompletions {α : Type} (timeoutSec : ℕ) (sys : SearchSystem α)
    (events : List (ℕ × RaceOutcome (Except Thrown (List (Obj α))))) : SearchSystem α :=
  events.foldl (fun s e => settleRequest timeoutSec s e.1 e.2) sys

/-- A request whose completion no longer reaches the view: its controller is
aborted, or `fetchData` has run to its end. -/
def SearchRequest.done (req : SearchRequest) : Bool := req.aborted || req.settled

/-- The systems that a system `start` reaches by submits of queries and
completions of requests, in any order. -/
inductive Reachable {α : Type} (timeoutSec : ℕ) (start : SearchSystem α) :
    SearchSystem α → Prop where
  | start : Reachable timeoutSec start start
  | submit (query : String) (sys : SearchSystem α) :
      Reachable timeoutSec start sys → Reachable timeoutSec start (submitSearch query sys)
  | settle (i : ℕ) (network : RaceOutcome (Except Thrown (List (Obj α))))
      (sys : SearchSystem α) :
      Reachable timeoutSec start sys →
      Reachable timeoutSec start (settleRequest timeoutSec sys i network)

/-- The search view as mounted: no error, not loading, no results, page 1,
an empty query, no request. -/
def mountedSearch : SearchSystem String :=
  { view := { error := some "", isLoading := false, results := [], page := 1,
              searchQuery := "" },
    requests := [], cleanup := none }

/-- A successful response with one recipe. -/
def pizzaResponse : RaceOutcome (Except Thrown (List (Obj String))) :=
  RaceOutcome.fetchResolved
    { ok := true, json := Except.ok (Except.ok [[("id", "p1"), ("image_url", "u")]]) }

/-- A successful response with another recipe. -/
def pastaResponse : RaceOutcome (Except Thrown (List (Obj String))) :=
  RaceOutcome.fetchResolved
    { ok := true, json := Except.ok (Except.ok [[("id", "q7"), ("title", "Pasta")]]) }

/-! ## Sample data -/

/-- A recipe for two servings with one ingredient of quantity `null`. -/
def saltRecipe : Recipe :=
  { id := "r1", title := "Rice", publisher := "P", imageUrl := "i", sourceUrl := "s",
    cookingTime := JSNum.fin 20, servings := 2,
    ingredients :=
      [{ quantity := some (JSNum.fin (1/2)), unit := "kg", description := "Rice" },
       { quantity := none, unit := "", description := "salt" }],
    key := none }

/-- A second recipe, with another identifier. -/
def soupRecipe : Recipe :=
  { id := "r2", title := "Soup", publisher := "Q", imageUrl := "j", sourceUrl := "t",
    cookingTime := JSNum.fin 35, servings := 4,
    ingredients := [{ quantity := some (JSNum.fin 3), unit := "", description := "Leek" }],
    key := some "user" }

/-! ## Theorems: servings rescale -/

/-- Rescaling a number by `n / S` for non-zero integers `n`, `S` and then by
`S / n` gives the number back. -/
theorem rescale_back (x : JSNum) (n S : ℤ) (hn : 0 < n) (hS : 0 < S) :
    JSNum.div (JSNum.mul (JSNum.div (JSNum.mul x (JSNum.ofInt n)) (JSNum.ofInt S))
      (JSNum.ofInt S)) (JSNum.ofInt n) = x := by
  have hn' : (n : ℚ) ≠ 0 := by exact_mod_cast hn.ne'
  have hS' : (S : ℚ) ≠ 0 := by exact_mod_cast hS.ne'
  have hn2 : ¬ ((n : ℚ) < 0) := by
    have : (0 : ℚ) < n := by exact_mod_cast hn
    exact not_lt.mpr this.le
  have hS2 : ¬ ((S : ℚ) < 0) := by
    have : (0 : ℚ) < S := by exact_mod_cast hS
    exact not_lt.mpr this.le
  cases x with
  | fin q =>
    simp only [JSNum.mul, JSNum.div, JSNum.ofInt, hn', hS', if_false]
    congr 1
    field_simp
  | nan => simp [JSNum.mul, JSNum.div, JSNum.ofInt]
  | inf s => simp [JSNum.mul, JSNum.div, JSNum.ofInt, hn', hS', hn2, hS2]

/-- The ingredient at index `i` after a rescale. -/
theorem handleUpdateServings_getElem? (r : Recipe) (n : ℤ) (i : ℕ) :
    (handleUpdateServings r n).ingredients[i]? =
      (r.ingredients[i]?).map fun ing =>
        { ing with quantity := some (JSNum.div
            (JSNum.mul (toNumber ing.quantity) (JSNum.ofInt n)) (JSNum.ofInt r.servings)) } := by
  simp [handleUpdateServings, List.getElem?_map]

/-- C1, as stated, fails on a `null` quantity: rescaling `saltRecipe` from 2
servings to 4 and back to 2 leaves the quantity `1/2` of its first ingredient
as it was, but turns the `null` quantity of its second ingredient into the
number `0`. -/
theorem rescale_round_trip_null_counterexample :
    (1 : ℤ) ≤ saltRecipe.servings ∧ (1 : ℤ) ≤ 4 ∧
    saltRecipe.ingredients.map Ingredient.quantity = [some (JSNum.fin (1/2)), none] ∧
    (handleUpdateServings (handleUpdateServings saltRecipe 4) saltRecipe.servings).ingredients.map
        Ingredient.quantity = [some (JSNum.fin (1/2)), some (JSNum.fin 0)] ∧
    (handleUpdateServings (handleUpdateServings saltRecipe 4) saltRecipe.servings).ingredients.map
        Ingredient.quantity ≠ saltRecipe.ingredients.map Ingredient.quantity := by
  refine ⟨by decide, by decide, rfl, ?_, ?_⟩
  · simp [handleUpdateServings, saltRecipe, toNumber, JSNum.mul, JSNum.div, JSNum.ofInt]
  · simp [handleUpdateServings, saltRecipe, toNumber, JSNum.mul, JSNum.div, JSNum.ofInt]

/-- C1 (amended): for a recipe with servings `S ≥ 1` and an integer `S' ≥ 1`,
rescaling to `S'` and then back to `S` gives a recipe with servings `S`, the
same number of ingredients, every other recipe field as before, and at every
index an ingredient with the unit and description it had, whose quantity is
the original one when that was a number and the number `0` when that was
`null`. -/
theorem rescale_round_trip (r : Recipe) (S' : ℤ) (hS : 1 ≤ r.servings) (hS' : 1 ≤ S') :
    (handleUpdateServings (handleUpdateServings r S') r.servings).servings = r.servings ∧
    (handleUpdateServings (handleUpdateServings r S') r.servings).ingredients.length
      = r.ingredients.length ∧
    (∀ (i : ℕ) (ing : Ingredient), r.ingredients[i]? = some ing →
      ∃ ing2 : Ingredient, (handleUpdateServings (handleUpdateServings r S') r.servings).ingredients[i]?
          = some ing2 ∧
        ing2.unit = ing.unit ∧ ing2.description = ing.description ∧
        (∀ x, ing.quantity = some x → ing2.quantity = some x) ∧
        (ing.quantity = none → ing2.quantity = some (JSNum.fin 0))) ∧
    { handleUpdateServings (handleUpdateServings r S') r.servings with
        ingredients := r.ingredients } = r := by
  refine ⟨rfl, by simp [handleUpdateServings], ?_, rfl⟩
  intro i ing hi
  have hback := fun x => rescale_back x S' r.servings (by omega) (by omega)
  rw [handleUpdateServings_getElem?, handleUpdateServings_getElem?, hi]
  refine ⟨_, rfl, rfl, rfl, ?_, ?_⟩
  · intro x hx
    simp only [hx, toNumber, handleUpdateServings]
    rw [hback]
  · intro hx
    simp only [hx, toNumber, handleUpdateServings]
    rw [hback]

/-- The round trip at `saltRecipe` (2 servings), through 4 servings. -/
theorem rescale_round_trip_witness :
    (handleUpdateServings (handleUpdateServings saltRecipe 4) saltRecipe.servings).servings
      = saltRecipe.servings ∧
    (handleUpdateServings (handleUpdateServings saltRecipe 4) saltRecipe.servings).ingredients.length
      = saltRecipe.ingredients.length ∧
    (∀ (i : ℕ) (ing : Ingredient), saltRecipe.ingredients[i]? = some ing →
      ∃ ing2 : Ingredient, (handleUpdateServings (handleUpdateServings saltRecipe 4)
          saltRecipe.servings).ingredients[i]? = some ing2 ∧
        ing2.unit = ing.unit ∧ ing2.description = ing.description ∧
        (∀ x, ing.quantity = some x → ing2.quantity = some x) ∧
        (ing.quantity = none → ing2.quantity = some (JSNum.fin 0))) ∧
    { handleUpdateServings (handleUpdateServings saltRecipe 4) saltRecipe.servings with
        ingredients := saltRecipe.ingredients } = saltRecipe :=
  rescale_round_trip saltRecipe 4 (by decide) (by decide)

/-- C2: for a recipe with servings `S ≠ 0` and an integer `newServings`, the
rescaled recipe has servings `newServings`, an ingredient list of the same
length whose `i`-th ingredient keeps its unit and description and has quantity
`q * newServings / S`, where `q` is the old quantity read as a number (`null`
reads as `0`), and the same id, title, publisher, imageUrl, sourceUrl,
cookingTime and key. -/
theorem handleUpdateServings_result (r : Recipe) (newServings : ℤ) (hS : r.servings ≠ 0) :
    (handleUpdateServings r newServings).servings = newServings ∧
    (handleUpdateServings r newServings).ingredients.length = r.ingredients.length ∧
    (∀ (i : ℕ) (ing : Ingredient), r.ingredients[i]? = some ing →
      ∃ ing2 : Ingredient, (handleUpdateServings r newServings).ingredients[i]? = some ing2 ∧
        ing2.unit = ing.unit ∧ ing2.description = ing.description ∧
        ∀ q : ℚ, toNumber ing.quantity = JSNum.fin q →
          ing2.quantity = some (JSNum.fin (q * newServings / r.servings))) ∧
    (handleUpdateServings r newServings).id = r.id ∧
    (handleUpdateServings r newServings).title = r.title ∧
    (handleUpdateServings r newServings).publisher = r.publisher ∧
    (handleUpdateServings r newServings).imageUrl = r.imageUrl ∧
    (handleUpdateServings r newServings).sourceUrl = r.sourceUrl ∧
    (handleUpdateServings r newServings).cookingTime = r.cookingTime ∧
    (handleUpdateServings r newServings).key = r.key := by
  refine ⟨rfl, by simp [handleUpdateServings], ?_, rfl, rfl, rfl, rfl, rfl, rfl, rfl⟩
  intro i ing hi
  have hS' : (r.servings : ℚ) ≠ 0 := by exact_mod_cast hS
  rw [handleUpdateServings_getElem?, hi]
  refine ⟨_, rfl, rfl, rfl, ?_⟩
  intro q hq
  simp [hq, JSNum.mul, JSNum.div, JSNum.ofInt, hS']

/-- The rescale of `saltRecipe` (2 servings) to 3 servings: quantity `1/2`
becomes `3/4`, and the `null` quantity becomes `0`. -/
theorem handleUpdateServings_result_witness :
    saltRecipe.servings ≠ 0 ∧
    (handleUpdateServings saltRecipe 3).servings = 3 ∧
    (handleUpdateServings saltRecipe 3).ingredients.map Ingredient.quantity
      = [some (JSNum.fin (3/4)), some (JSNum.fin 0)] ∧
    (handleUpdateServings saltRecipe 3).ingredients.length = saltRecipe.ingredients.length :=
  ⟨by decide, (handleUpdateServings_result saltRecipe 3 (by decide)).1,
    by simp [handleUpdateServings, saltRecipe, toNumber, JSNum.mul, JSNum.div, JSNum.ofInt]
       norm_num,
    (handleUpdateServings_result saltRecipe 3 (by decide)).2.1⟩

/-! ## Theorems: bookmark toggle -/

/-- Some bookmark has the identifier of `r` exactly when the `some` test of
`handleAddBookmark` succeeds. -/
theorem any_id_iff (L : List Recipe) (r : Recipe) :
    L.any (fun bookmark => bookmark.id == r.id) = true ↔ ∃ b ∈ L, b.id = r.id := by
  simp [List.any_eq_true]

/-- The test of the `filter` of `handleAddBookmark`, as a decided inequality. -/
theorem bne_id_eq (r : Recipe) :
    (fun bookmark : Recipe => bookmark.id != r.id) = fun b => decide (b.id ≠ r.id) := by
  funext b
  by_cases h : b.id = r.id <;> simp [h]

/-- Filtering out an identifier that no bookmark has changes nothing. -/
theorem filter_id_of_absent (L : List Recipe) (r : Recipe) (h : ∀ b ∈ L, b.id ≠ r.id) :
    L.filter (fun bookmark => bookmark.id != r.id) = L := by
  apply List.filter_eq_self.mpr
  intro b hb
  simpa using h b hb

/-- C3: when some entry of the bookmark list `L` has the identifier of `r`,
`handleAddBookmark` yields `L` with every entry of that identifier removed,
the remaining entries in their original relative order (a sublist of `L`
holding exactly the entries of another identifier); otherwise
it yields `L` with `r` appended as the last element. -/
theorem handleAddBookmark_toggle (L : List Recipe) (r : Recipe) :
    ((∃ b ∈ L, b.id = r.id) →
      handleAddBookmark L r = L.filter (fun b => decide (b.id ≠ r.id)) ∧
      (handleAddBookmark L r).Sublist L ∧
      (∀ b, b ∈ handleAddBookmark L r ↔ b ∈ L ∧ b.id ≠ r.id)) ∧
    ((¬ ∃ b ∈ L, b.id = r.id) → handleAddBookmark L r = L ++ [r]) := by
  constructor
  · intro h
    have hany := (any_id_iff L r).mpr h
    have heq : handleAddBookmark L r = L.filter (fun b => decide (b.id ≠ r.id)) := by
      simp only [handleAddBookmark, hany, if_true]
      rw [bne_id_eq]
    refine ⟨heq, ?_, ?_⟩
    · rw [heq]; exact List.filter_sublist L
    · intro b
      rw [heq]
      simp [List.mem_filter]
  · intro h
    have hany : ¬ (L.any (fun bookmark => bookmark.id == r.id) = true) :=
      fun h2 => h ((any_id_iff L r).mp h2)
    simp only [handleAddBookmark, hany, if_false]
    simp

/-- Both cases of the toggle on the list `[saltRecipe, soupRecipe]`: toggling
`saltRecipe` removes it, and toggling it on `[soupRecipe]` appends it. -/
theorem handleAddBookmark_toggle_witness :
    handleAddBookmark [saltRecipe, soupRecipe] saltRecipe = [soupRecipe] ∧
    handleAddBookmark [soupRecipe] saltRecipe = [soupRecipe, saltRecipe] := by
  constructor
  · have h := ((handleAddBookmark_toggle [saltRecipe, soupRecipe] saltRecipe).1
      ⟨saltRecipe, by simp, rfl⟩).1
    rw [h]
    simp [saltRecipe, soupRecipe]
  · have h := (handleAddBookmark_toggle [soupRecipe] saltRecipe).2
      (by simp [saltRecipe, soupRecipe])
    rw [h]
    rfl

/-- C4, as stated, fails when the recipe is already bookmarked and is not the
last entry: toggling `saltRecipe` twice on `[saltRecipe, soupRecipe]` gives
`[soupRecipe, saltRecipe]`, the same entries in another order. -/
theorem handleAddBookmark_twice_counterexample :
    handleAddBookmark (handleAddBookmark [saltRecipe, soupRecipe] saltRecipe) saltRecipe
      = [soupRecipe, saltRecipe] ∧
    handleAddBookmark (handleAddBookmark [saltRecipe, soupRecipe] saltRecipe) saltRecipe
      ≠ [saltRecipe, soupRecipe] := by
  have h : handleAddBookmark (handleAddBookmark [saltRecipe, soupRecipe] saltRecipe) saltRecipe
      = [soupRecipe, saltRecipe] := by
    simp [handleAddBookmark, saltRecipe, soupRecipe]
  refine ⟨h, ?_⟩
  rw [h]
  simp [saltRecipe, soupRecipe]

/-- C4 (amended): when no entry of the bookmark list `L` has the identifier of
`r`, applying `handleAddBookmark r` twice returns `L`, the same entries in the
same order; when some entry has it, the two calls return `L` with every entry
of that identifier removed and `r` appended as the last element. -/
theorem handleAddBookmark_twice (L : List Recipe) (r : Recipe) :
    ((∀ b ∈ L, b.id ≠ r.id) → handleAddBookmark (handleAddBookmark L r) r = L) ∧
    ((∃ b ∈ L, b.id = r.id) →
      handleAddBookmark (handleAddBookmark L r) r
        = L.filter (fun b => decide (b.id ≠ r.id)) ++ [r]) := by
  constructor
  · intro h
    have hany : ¬ (L.any (fun bookmark => bookmark.id == r.id) = true) := by
      rw [any_id_iff]
      rintro ⟨b, hb, hid⟩
      exact h b hb hid
    have h1 : handleAddBookmark L r = L ++ [r] := by
      simp only [handleAddBookmark, hany, if_false]
      simp
    have hany2 : (L ++ [r]).any (fun bookmark => bookmark.id == r.id) = true := by
      simp
    rw [h1]
    simp only [handleAddBookmark, hany2, if_true]
    rw [List.filter_append, filter_id_of_absent L r h]
    simp
  · intro h
    have hany := (any_id_iff L r).mpr h
    have h1 : handleAddBookmark L r = L.filter (fun bookmark => bookmark.id != r.id) := by
      simp only [handleAddBookmark, hany, if_true]
    have hany2 : ¬ ((L.filter (fun bookmark => bookmark.id != r.id)).any
        (fun bookmark => bookmark.id == r.id) = true) := by
      simp [List.any_eq_true, List.mem_filter]
    rw [h1]
    unfold handleAddBookmark
    rw [if_neg hany2, bne_id_eq]

/-- Both cases of the double toggle: on `[soupRecipe]` toggling `saltRecipe`
twice gives `[soupRecipe]` back; on `[saltRecipe, soupRecipe]` it moves
`saltRecipe` to the end. -/
theorem handleAddBookmark_twice_witness :
    handleAddBookmark (handleAddBookmark [soupRecipe] saltRecipe) saltRecipe = [soupRecipe] ∧
    handleAddBookmark (handleAddBookmark [saltRecipe, soupRecipe] saltRecipe) saltRecipe
      = [saltRecipe, soupRecipe].filter (fun b => decide (b.id ≠ saltRecipe.id))
          ++ [saltRecipe] :=
  ⟨(handleAddBookmark_twice [soupRecipe] saltRecipe).1 (by simp [saltRecipe, soupRecipe]),
   (handleAddBookmark_twice [saltRecipe, soupRecipe] saltRecipe).2 ⟨saltRecipe, by simp, rfl⟩⟩

/-! ## Theorems: key transformer -/

/-- The code of a lower-case basic Latin letter. -/
theorem isLower_bounds (c : Char) (h : c.isLower = true) : 97 ≤ c.toNat ∧ c.toNat ≤ 122 := by
  simp only [Char.isLower, Bool.and_eq_true, decide_eq_true_eq, ge_iff_le] at h
  obtain ⟨h1, h2⟩ := h
  have h1' : (97 : UInt32).toNat ≤ c.val.toNat := h1
  have h2' : c.val.toNat ≤ (122 : UInt32).toNat := h2
  exact ⟨h1', h2'⟩

/-- Lower-casing leaves a lower-case letter as it is. -/
theorem toLower_of_isLower (c : Char) (h : c.isLower = true) : c.toLower = c := by
  have hb := isLower_bounds c h
  unfold Char.toLower
  simp only []
  rw [if_neg]
  omega

/-- A lower-case letter is not the separator. -/
theorem ne_underscore_of_isLower (c : Char) (h : c.isLower = true) : c ≠ '_' := by
  rintro rfl
  exact absurd h (by decide)

/-- Lower-casing leaves a string of lower-case letters as it is. -/
theorem toLocaleLowerCase_of_lower (s : List Char) (h : ∀ x ∈ s, x.isLower = true) :
    toLocaleLowerCase s = s := by
  induction s with
  | nil => rfl
  | cons c cs ih =>
    have hc := toLower_of_isLower c (h c (List.mem_cons_self c cs))
    have hcs := ih (fun x hx => h x (List.mem_cons_of_mem c hx))
    simp only [toLocaleLowerCase, List.map_cons] at hcs ⊢
    rw [hc, hcs]

/-- Lower-casing goes through a concatenation. -/
theorem toLocaleLowerCase_append (s t : List Char) :
    toLocaleLowerCase (s ++ t) = toLocaleLowerCase s ++ toLocaleLowerCase t := by
  simp [toLocaleLowerCase]

/-- A string without the separator is its own single segment. -/
theorem splitChars_of_no_sep (sep : Char) (s : List Char) (h : ∀ x ∈ s, x ≠ sep) :
    splitChars sep s = [s] := by
  induction s with
  | nil => rfl
  | cons c cs ih =>
    have hc : c ≠ sep := h c (List.mem_cons_self c cs)
    have hcs := ih (fun x hx => h x (List.mem_cons_of_mem c hx))
    simp [splitChars, hc, hcs]

/-- The first segment of a string ends at its first separator. -/
theorem splitChars_append_sep (sep : Char) (s t : List Char) (h : ∀ x ∈ s, x ≠ sep) :
    splitChars sep (s ++ sep :: t) = s :: splitChars sep t := by
  induction s with
  | nil => simp [splitChars]
  | cons c cs ih =>
    have hc : c ≠ sep := h c (List.mem_cons_self c cs)
    have hcs := ih (fun x hx => h x (List.mem_cons_of_mem c hx))
    simp [splitChars, hc, hcs]

/-- The key of `first_second`, both segments of lower-case letters, the second
one non-empty: `first` followed by `second` with its first letter upper-cased. -/
theorem transformKey_two_segments (first rest : List Char) (c : Char)
    (hfirst : ∀ x ∈ first, x.isLower = true) (hsecond : ∀ x ∈ c :: rest, x.isLower = true) :
    transformKey (String.mk (first ++ '_' :: c :: rest))
      = Except.ok (String.mk (first ++ c.toUpper :: rest)) := by
  have h1 : toLocaleLowerCase (first ++ '_' :: c :: rest) = first ++ '_' :: c :: rest := by
    rw [toLocaleLowerCase_append, toLocaleLowerCase_of_lower first hfirst]
    have h2 := toLocaleLowerCase_of_lower (c :: rest) hsecond
    simp only [toLocaleLowerCase, List.map_cons] at h2 ⊢
    rw [h2]
    rfl
  have h3 : splitChars '_' (first ++ '_' :: c :: rest) = [first, c :: rest] := by
    rw [splitChars_append_sep _ _ _ (fun x hx => ne_underscore_of_isLower x (hfirst x hx)),
      splitChars_of_no_sep _ _ (fun x hx => ne_underscore_of_isLower x (hsecond x hx))]
  simp [transformKey, h1, h3, replaceFirst, toUpperCase]

/-- The key of a string of lower-case letters is the string itself. -/
theorem transformKey_one_segment (k : String) (hk : ∀ x ∈ k.data, x.isLower = true) :
    transformKey k = Except.ok k := by
  have h1 := toLocaleLowerCase_of_lower k.data hk
  have h3 := splitChars_of_no_sep '_' k.data
    (fun x hx => ne_underscore_of_isLower x (hk x hx))
  simp [transformKey, h1, h3]

/-- Reading a key right after it was assigned gives the assigned value. -/
theorem Obj.get_assign_self {α : Type} (acc : Obj α) (k : String) (v : α) :
    Obj.get (Obj.assign acc k v) k = some v := by
  induction acc with
  | nil => simp [Obj.assign, Obj.get]
  | cons e rest ih =>
    obtain ⟨k', v'⟩ := e
    by_cases h : k' = k
    · simp [Obj.assign, Obj.get, h]
    · simp [Obj.assign, Obj.get, h, ih]

/-- Assigning one key does not change what another key reads. -/
theorem Obj.get_assign_other {α : Type} (acc : Obj α) (k k2 : String) (v : α) (hne : k2 ≠ k) :
    Obj.get (Obj.assign acc k2 v) k = Obj.get acc k := by
  induction acc with
  | nil => simp [Obj.assign, Obj.get, hne]
  | cons e rest ih =>
    obtain ⟨k', v'⟩ := e
    by_cases h : k' = k2
    · subst h
      simp [Obj.assign, Obj.get, hne]
    · by_cases h2 : k' = k
      · subst h2
        simp [Obj.assign, Obj.get, h]
      · simp [Obj.assign, Obj.get, h, h2, ih]

/-- One step of the fold on an entry whose key transforms. -/
theorem transformFrom_cons {α : Type} (acc : Obj α) (e : String × α) (rest : Obj α) (k : String)
    (hk : transformKey e.1 = Except.ok k) :
    transformFrom acc (e :: rest) = transformFrom (Obj.assign acc k e.2) rest := by
  simp [transformFrom, List.foldlM_cons, hk, Except.map, bind, Except.bind]

/-- The fold over a concatenation. -/
theorem transformFrom_append {α : Type} (acc : Obj α) (l1 l2 : Obj α) :
    transformFrom acc (l1 ++ l2) = (transformFrom acc l1) >>= fun out => transformFrom out l2 := by
  simp [transformFrom, List.foldlM_append]

/-- The fold returns when every key transforms. -/
theorem transformFrom_ok {α : Type} (obj : Obj α)
    (h : ∀ e ∈ obj, ∃ k, transformKey e.1 = Except.ok k) (acc : Obj α) :
    ∃ out, transformFrom acc obj = Except.ok out := by
  induction obj generalizing acc with
  | nil => exact ⟨acc, rfl⟩
  | cons e rest ih =>
    obtain ⟨k, hk⟩ := h e (List.mem_cons_self e rest)
    rw [transformFrom_cons acc e rest k hk]
    exact ih (fun x hx => h x (List.mem_cons_of_mem e hx)) _

/-- A value stored under `newKey` is still read after the fold over entries
none of whose keys transforms to `newKey`. -/
theorem transformFrom_keeps {α : Type} (obj : Obj α) (newKey : String) (v : α)
    (h : ∀ e ∈ obj, ∃ k, transformKey e.1 = Except.ok k)
    (hne : ∀ e ∈ obj, transformKey e.1 ≠ Except.ok newKey) (acc : Obj α)
    (hacc : Obj.get acc newKey = some v) :
    ∃ out, transformFrom acc obj = Except.ok out ∧ Obj.get out newKey = some v := by
  induction obj generalizing acc with
  | nil => exact ⟨acc, rfl, hacc⟩
  | cons e rest ih =>
    obtain ⟨k, hk⟩ := h e (List.mem_cons_self e rest)
    have hkne : k ≠ newKey := by
      rintro rfl
      exact hne e (List.mem_cons_self e rest) hk
    rw [transformFrom_cons acc e rest k hk]
    apply ih (fun x hx => h x (List.mem_cons_of_mem e hx))
      (fun x hx => hne x (List.mem_cons_of_mem e hx))
    rw [Obj.get_assign_other acc newKey k e.2 hkne]
    exact hacc

/-- C5, as stated, fails when a later key of the mapping transforms to the
same new key: in the mapping with `cooking_time` = 30 and then
`cooking_time_max` = 45 both keys become `cookingTime` (only the first two
segments of a key are used), and the output value under `cookingTime` is 45,
not the input value 30 of `cooking_time`. -/
theorem transformObject_key_counterexample :
    Obj.get [("cooking_time", 30), ("cooking_time_max", 45)] "cooking_time" = some 30 ∧
    transformObject [("cooking_time", 30), ("cooking_time_max", 45)]
      = Except.ok [("cookingTime", 45)] ∧
    Obj.get [("cookingTime", 45)] "cookingTime" = some 45 ∧
    Obj.get [("cookingTime", 45)] "cookingTime" ≠ some 30 := by
  refine ⟨rfl, rfl, rfl, ?_⟩
  intro h
  have h2 : Obj.get [("cookingTime", 45)] "cookingTime" = some 45 := rfl
  rw [h2] at h
  exact absurd (Option.some.inj h) (by decide)

/-- C5 (amended): let `k` be a key of the input mapping that is either
`first_second`, two segments of lower-case letters joined by one underscore,
the second one non-empty, or a string of lower-case letters without an
underscore, and let `newKey` be `first` followed by `second` with its first
letter upper-cased in the first case and `k` itself in the second. Then `k`
transforms to `newKey`, and when every other key of the mapping transforms
without a throw and no key after `k` in the mapping transforms to `newKey`,
`transformObject` returns a mapping whose value under `newKey` is the input
value of `k`. -/
theorem transformObject_key {α : Type} (pre post : Obj α) (k : String) (v : α) (newKey : String)
    (hform :
      (∃ first c rest, (∀ x ∈ first, x.isLower = true) ∧ (∀ x ∈ c :: rest, x.isLower = true) ∧
        k = String.mk (first ++ '_' :: c :: rest) ∧
        newKey = String.mk (first ++ c.toUpper :: rest)) ∨
      ((∀ x ∈ k.data, x.isLower = true) ∧ newKey = k))
    (hall : ∀ e ∈ pre ++ post, ∃ k2, transformKey e.1 = Except.ok k2)
    (hlast : ∀ e ∈ post, transformKey e.1 ≠ Except.ok newKey) :
    transformKey k = Except.ok newKey ∧
    ∃ out, transformObject (pre ++ (k, v) :: post) = Except.ok out ∧
      Obj.get out newKey = some v := by
  have hk : transformKey k = Except.ok newKey := by
    rcases hform with ⟨first, c, rest, h1, h2, rfl, rfl⟩ | ⟨h1, rfl⟩
    · exact transformKey_two_segments first rest c h1 h2
    · exact transformKey_one_segment _ h1
  refine ⟨hk, ?_⟩
  obtain ⟨o1, ho1⟩ := transformFrom_ok pre
    (fun e he => hall e (List.mem_append_left post he)) []
  obtain ⟨out, hout, hget⟩ := transformFrom_keeps post newKey v
    (fun e he => hall e (List.mem_append_right pre he)) hlast
    (Obj.assign o1 newKey v) (Obj.get_assign_self o1 newKey v)
  refine ⟨out, ?_, hget⟩
  unfold transformObject
  rw [transformFrom_append, ho1]
  show transformFrom o1 ((k, v) :: post) = Except.ok out
  rw [transformFrom_cons o1 (k, v) post newKey hk]
  exact hout

/-- The two keys of the specification: in the mapping with `cooking_time` = 1
and `title` = 2, `cooking_time` becomes `cookingTime` with value 1 and `title`
stays `title` with value 2. -/
theorem transformObject_key_witness :
    (transformKey "cooking_time" = Except.ok "cookingTime" ∧
      ∃ out, transformObject ([] ++ ("cooking_time", 1) :: [("title", 2)]) = Except.ok out ∧
        Obj.get out "cookingTime" = some 1) ∧
    (transformKey "title" = Except.ok "title" ∧
      ∃ out, transformObject ([("cooking_time", 1)] ++ ("title", 2) :: []) = Except.ok out ∧
        Obj.get out "title" = some 2) := by
  constructor
  · refine transformObject_key [] [("title", 2)] "cooking_time" 1 "cookingTime"
      (Or.inl ⟨"cooking".data, 't', "ime".data, by decide, by decide, rfl, rfl⟩) ?_ ?_
    · intro e he
      simp only [List.nil_append, List.mem_singleton] at he
      subst he
      exact ⟨"title", rfl⟩
    · intro e he
      simp only [List.mem_singleton] at he
      subst he
      intro h
      have h2 : transformKey "title" = Except.ok "title" := rfl
      rw [h2] at h
      exact absurd (Except.ok.inj h) (by decide)
  · refine transformObject_key [("cooking_time", 1)] [] "title" 2 "title"
      (Or.inr ⟨by decide, rfl⟩) ?_ ?_
    · intro e he
      simp only [List.append_nil, List.mem_singleton] at he
      subst he
      exact ⟨"cookingTime", rfl⟩
    · intro e he
      exact absurd he (List.not_mem_nil e)

/-- C6 fails on the code at a key whose second segment is empty: for the keys
`title_` (ending with an underscore), `_` and `a__b` (two underscores in a
row) the call `second[0].toUpperCase()` is made on `undefined`, and
`transformObject` throws a `TypeError` instead of returning a mapping. -/
theorem transformObject_throws_on_empty_second_segment :
    transformObject [("title", 1), ("title_", 2)]
      = Except.error
          (Thrown.error "TypeError" "Cannot read properties of undefined (reading 'toUpperCase')") ∧
    transformObject [("_", 1)]
      = Except.error
          (Thrown.error "TypeError" "Cannot read properties of undefined (reading 'toUpperCase')") ∧
    transformObject [("a__b", 1)]
      = Except.error
          (Thrown.error "TypeError" "Cannot read properties of undefined (reading 'toUpperCase')") :=
  ⟨rfl, rfl, rfl⟩

/-! ## Theorems: ingredient lines -/

/-- A split has one part more than the string has separators. -/
theorem splitChars_length (sep : Char) (s : List Char) :
    (splitChars sep s).length = s.count sep + 1 := by
  induction s with
  | nil => rfl
  | cons c cs ih =>
    by_cases hc : c = sep
    · subst hc
      simp [splitChars, ih]
    · have hne : (splitChars sep cs) ≠ [] := by
        intro h
        rw [h] at ih
        simp at ih
      obtain ⟨seg, segs, hsplit⟩ := List.exists_cons_of_ne_nil hne
      rw [hsplit] at ih
      simp only [splitChars, hc, if_false, hsplit, List.length_cons]
      rw [List.count_cons_of_ne (Ne.symm hc)]
      simpa using ih

/-- One step of the `reduce`: a line of at least three parts adds its object
at the end, any other line adds nothing. -/
theorem pushIngredient_eq (acc : List Ingredient) (line : String) :
    pushIngredient acc line
      = if 3 ≤ (split line ',').length then acc ++ [ingredientOfLine line] else acc := by
  unfold pushIngredient ingredientOfLine
  rcases hsplit : split line ',' with _ | ⟨q, _ | ⟨u, _ | ⟨d, rest⟩⟩⟩ <;> simp

/-- The `reduce` from any accumulator. -/
theorem foldl_pushIngredient (lines : List String) (acc : List Ingredient) :
    lines.foldl pushIngredient acc
      = acc ++ (lines.filter fun line => decide (3 ≤ (split line ',').length)).map
          ingredientOfLine := by
  induction lines generalizing acc with
  | nil => simp
  | cons line rest ih =>
    rw [List.foldl_cons, ih, pushIngredient_eq]
    by_cases h : 3 ≤ (split line ',').length
    · simp [h, List.filter_cons]
    · simp [h, List.filter_cons]

/-- C7: the parsed ingredient list holds, in the order of the ingredient
lines, exactly one entry for each line that splits on `,` into at least three
parts, that is, a line with at least two commas, and no entry for any other
line; the entry of such a line has as quantity the numeric value of the first
part (which is 0 when the first part is empty), as unit the second part and
as description the third part. -/
theorem parseIngredients_spec (formObj : Obj String) :
    parseIngredients formObj
      = ((ingredientLines formObj).filter fun line =>
          decide (3 ≤ (split line ',').length)).map ingredientOfLine ∧
    (∀ line : String, 3 ≤ (split line ',').length ↔ 2 ≤ line.data.count ',') ∧
    (∀ line : String, 3 ≤ (split line ',').length →
      ∃ quantity unit description rest,
        split line ',' = quantity :: unit :: description :: rest ∧
        ingredientOfLine line
          = { quantity := some (stringToNumber quantity), unit := unit,
              description := description }) ∧
    stringToNumber "" = JSNum.fin 0 := by
  refine ⟨?_, ?_, ?_, rfl⟩
  · have h := foldl_pushIngredient (ingredientLines formObj) []
    rw [List.nil_append] at h
    rw [← h]
    unfold parseIngredients ingredientLines
    rw [List.foldl_map]
  · intro line
    simp only [split, List.length_map, splitChars_length]
    omega
  · intro line h
    rcases hsplit : split line ',' with _ | ⟨q, _ | ⟨u, _ | ⟨d, rest⟩⟩⟩
    · rw [hsplit] at h; simp at h
    · rw [hsplit] at h; simp at h
    · rw [hsplit] at h; simp at h
    · exact ⟨q, u, d, rest, rfl, by simp [ingredientOfLine, hsplit]⟩

/-- The form with its default values: `0.5,kg,Rice` gives quantity 0.5, unit
`kg`, description `Rice`; `,,salt` gives quantity 0, an empty unit and
description `salt`; the lines with fewer than two commas give no entry. -/
theorem parseIngredients_spec_witness :
    ingredientLines sampleForm
      = ["0.5,kg,Rice", "1,,Avocado", ",,salt", "", "pepper", "2,eggs"] ∧
    parseIngredients sampleForm =
      [{ quantity := some (JSNum.fin (1/2)), unit := "kg", description := "Rice" },
       { quantity := some (JSNum.fin 1), unit := "", description := "Avocado" },
       { quantity := some (JSNum.fin 0), unit := "", description := "salt" }] := by
  refine ⟨rfl, ?_⟩
  rw [(parseIngredients_spec sampleForm).1]
  have h : ((ingredientLines sampleForm).filter fun line =>
      decide (3 ≤ (split line ',').length)).map ingredientOfLine =
      [{ quantity := some (stringToNumber "0.5"), unit := "kg", description := "Rice" },
       { quantity := some (stringToNumber "1"), unit := "", description := "Avocado" },
       { quantity := some (stringToNumber ""), unit := "", description := "salt" }] := rfl
  have h1 : stringToNumber "0.5"
      = JSNum.fin ((((0 : ℕ) : ℚ) + ((5 : ℕ) : ℚ) / (10 : ℚ) ^ 1) * 1) := rfl
  have h2 : stringToNumber "1"
      = JSNum.fin ((((1 : ℕ) : ℚ) + ((0 : ℕ) : ℚ) / (10 : ℚ) ^ 0) * 1) := rfl
  have h3 : stringToNumber "" = JSNum.fin 0 := rfl
  rw [h, h1, h2, h3]
  norm_num

/-! ## Theorems: pagination -/

/-- A slice between two natural indices: skip the first, keep up to the
difference. -/
theorem slice_of_nat {α : Type} (l : List α) (a b : ℕ) :
    slice l (a : ℤ) (b : ℤ) = (l.drop a).take (b - a) := by
  unfold slice
  have ha : ¬ ((a : ℤ) < 0) := by omega
  have hb : ¬ ((b : ℤ) < 0) := by omega
  simp only [ha, hb, if_false]
  by_cases hal : l.length ≤ a
  · have h1 : (min (a : ℤ) (l.length : ℤ)).toNat = l.length := by
      rw [min_eq_right (by omega)]
      simp
    rw [h1, List.drop_of_length_le (le_refl _), List.drop_of_length_le hal]
    simp
  · have h1 : (min (a : ℤ) (l.length : ℤ)).toNat = a := by
      rw [min_eq_left (by omega)]
      simp
    rw [h1]
    by_cases hbl : b ≤ l.length
    · have h2 : (min (b : ℤ) (l.length : ℤ) - min (a : ℤ) (l.length : ℤ)).toNat = b - a := by
        rw [min_eq_left (by omega), min_eq_left (by omega)]
        omega
      rw [h2]
    · have h2 : (min (b : ℤ) (l.length : ℤ) - min (a : ℤ) (l.length : ℤ)).toNat
          = l.length - a := by
        rw [min_eq_right (by omega), min_eq_left (by omega)]
        omega
      rw [h2, List.take_of_length_le (by simp), List.take_of_length_le (by simp; omega)]

/-- The slice of page `i + 1`. -/
theorem paginatedResults_succ {α : Type} (results : List α) (i p : ℕ) :
    paginatedResults results ((i : ℤ) + 1) p = (results.drop (i * p)).take p := by
  unfold paginatedResults
  have h1 : ((i : ℤ) + 1 - 1) * (p : ℤ) = ((i * p : ℕ) : ℤ) := by push_cast; ring
  have h2 : ((i : ℤ) + 1) * (p : ℤ) = (((i + 1) * p : ℕ) : ℤ) := by push_cast; ring
  rw [h1, h2, slice_of_nat]
  congr 1
  rw [Nat.add_mul, Nat.one_mul, Nat.add_sub_cancel_left]

/-- The slices of the first `N` pages, one after the other, are the first
`N * p` results. -/
theorem bind_pages {α : Type} (results : List α) (p N : ℕ) :
    (pageButtons N).flatMap (fun k => paginatedResults results k p) = results.take (N * p) := by
  induction N with
  | zero => simp [pageButtons]
  | succ N ih =>
    have hsplit : pageButtons (N + 1) = pageButtons N ++ [(N : ℤ) + 1] := by
      simp [pageButtons, List.range_succ]
    rw [hsplit, List.flatMap_append, ih]
    simp only [List.flatMap_cons, List.flatMap_nil, List.append_nil]
    rw [paginatedResults_succ, Nat.add_mul, Nat.one_mul, List.take_add]

/-- Some number of pages `N` covers the `n` results while one page fewer
does not. -/
theorem pages_bounds (n p : ℕ) (hp : 1 ≤ p) :
    ∃ N : ℕ, n ≤ N * p ∧ N * p < n + p := by
  have h1 := Nat.div_add_mod (n + p - 1) p
  have h2 := Nat.mod_lt (n + p - 1) (show p > 0 by omega)
  rw [Nat.mul_comm] at h1
  exact ⟨(n + p - 1) / p, by omega, by omega⟩

/-- C8: for a result list of length `n` and a page size `p ≥ 1` the number of
pages is a natural number `N` equal to the ceiling of `n / p`; for every page
`k` of the buttons `1, ..., N` the displayed slice is non-empty, has at most
`p` items and holds the results of indices `(k - 1) * p` up to `k * p`; the
last page has `n - (N - 1) * p` items; and the slices of the pages
`1, ..., N` one after the other are exactly the result list. -/
theorem pagination_spec {α : Type} (results : List α) (p : ℕ) (hp : 1 ≤ p) :
    ∃ N : ℕ,
      numPages results p = JSNum.fin (N : ℚ) ∧
      (N : ℤ) = Int.ceil ((results.length : ℚ) / (p : ℚ)) ∧
      pageButtons N = (List.range N).map (fun i => (i : ℤ) + 1) ∧
      (∀ k : ℕ, 1 ≤ k → k ≤ N →
        paginatedResults results (k : ℤ) p ≠ [] ∧
        (paginatedResults results (k : ℤ) p).length ≤ p ∧
        paginatedResults results (k : ℤ) p = (results.drop ((k - 1) * p)).take p) ∧
      (1 ≤ N → (paginatedResults results (N : ℤ) p).length = results.length - (N - 1) * p) ∧
      (pageButtons N).flatMap (fun k => paginatedResults results k p) = results := by
  obtain ⟨N, hcover, hless⟩ := pages_bounds results.length p hp
  have hpq : (0 : ℚ) < (p : ℚ) := by exact_mod_cast hp
  have hcoverq : (results.length : ℚ) ≤ (N : ℚ) * (p : ℚ) := by exact_mod_cast hcover
  have hlessq : (N : ℚ) * (p : ℚ) < (results.length : ℚ) + (p : ℚ) := by exact_mod_cast hless
  have hceil : Int.ceil ((results.length : ℚ) / (p : ℚ)) = (N : ℤ) := by
    rw [Int.ceil_eq_iff]
    constructor
    · rw [lt_div_iff₀ hpq]
      push_cast
      linarith
    · rw [div_le_iff₀ hpq]
      push_cast
      linarith
  have hpage : ∀ k : ℕ, 1 ≤ k →
      paginatedResults results (k : ℤ) p = (results.drop ((k - 1) * p)).take p := by
    intro k hk
    obtain ⟨i, rfl⟩ : ∃ i, k = i + 1 := ⟨k - 1, by omega⟩
    have h := paginatedResults_succ results i p
    rw [Nat.add_sub_cancel]
    rw [← h]
    push_cast
    rfl
  have hsub : ∀ k : ℕ, 1 ≤ k → (k - 1) * p + p = k * p := by
    intro k hk
    obtain ⟨i, rfl⟩ : ∃ i, k = i + 1 := ⟨k - 1, by omega⟩
    rw [Nat.add_sub_cancel, Nat.add_mul, Nat.one_mul]
  refine ⟨N, ?_, hceil.symm, rfl, ?_, ?_, ?_⟩
  · have hp0 : ((p : ℤ) : ℚ) ≠ 0 := by
      have : (p : ℤ) ≠ 0 := by omega
      exact_mod_cast this
    simp only [numPages, JSNum.ofInt, JSNum.div, hp0, if_false, JSNum.ceil]
    congr 1
    have h : Int.ceil (((results.length : ℤ) : ℚ) / ((p : ℤ) : ℚ)) = (N : ℤ) := by
      rw [← hceil]
      simp
    rw [h]
    simp
  · intro k hk1 hkN
    have h := Nat.mul_le_mul_right p hkN
    have h2 := hsub k hk1
    have hlt : (k - 1) * p < results.length := by omega
    rw [hpage k hk1]
    refine ⟨?_, ?_, rfl⟩
    · intro h
      have hlen := congrArg List.length h
      simp only [List.length_take, List.length_drop, List.length_nil] at hlen
      omega
    · simp only [List.length_take, List.length_drop]
      omega
  · intro hN
    rw [hpage _ hN]
    have h2 := hsub N hN
    simp only [List.length_take, List.length_drop]
    omega
  · rw [bind_pages, List.take_of_length_le hcover]

/-- The example of the specification: 23 results at 10 per page make 3 pages,
the last one of 3 items, and the three pages together are the 23 results. -/
theorem pagination_spec_witness :
    numPages (List.range 23) 10 = JSNum.fin 3 ∧
    pageButtons 3 = [1, 2, 3] ∧
    paginatedResults (List.range 23) 3 10 = [20, 21, 22] ∧
    (paginatedResults (List.range 23) 3 10).length = 3 ∧
    (pageButtons 3).flatMap (fun k => paginatedResults (List.range 23) k 10) = List.range 23 := by
  obtain ⟨N, h1, h2, -, -, h4, h5⟩ := pagination_spec (List.range 23) 10 (by decide)
  have hN : N = 3 := by
    have hc : Int.ceil (((List.range 23).length : ℚ) / ((10 : ℕ) : ℚ)) = 3 := by
      rw [Int.ceil_eq_iff]
      simp only [List.length_range]
      norm_num
    rw [hc] at h2
    exact_mod_cast h2
  subst hN
  refine ⟨?_, by decide, by decide, by decide, h5⟩
  rw [h1]
  norm_num

/-! ## Theorems: fetch handlers -/

/-- C9: for a non-empty search query whose response is successful (`res.ok`)
with an empty `recipes` list, the effect of `SearchResults` ends with the
error state set to the non-empty message `No recipes found for your search
query. Try again :)`, which is rendered, with loading cleared, and with the
stored results left as they were (not replaced by the empty list), so the
result list is not rendered. -/
theorem zero_results_is_error {α : Type} (timeoutSec : ℕ) (s : SearchState α)
    (hq : s.searchQuery ≠ "") :
    (searchEffect timeoutSec s
        (RaceOutcome.fetchResolved ⟨true, Except.ok (Except.ok [])⟩)).error
      = some "No recipes found for your search query. Try again :)" ∧
    (searchEffect timeoutSec s
        (RaceOutcome.fetchResolved ⟨true, Except.ok (Except.ok [])⟩)).showsError = true ∧
    (searchEffect timeoutSec s
        (RaceOutcome.fetchResolved ⟨true, Except.ok (Except.ok [])⟩)).isLoading = false ∧
    (searchEffect timeoutSec s
        (RaceOutcome.fetchResolved ⟨true, Except.ok (Except.ok [])⟩)).results = s.results ∧
    (searchEffect timeoutSec s
        (RaceOutcome.fetchResolved ⟨true, Except.ok (Except.ok [])⟩)).showsResults = false := by
  have h : searchEffect timeoutSec s
      (RaceOutcome.fetchResolved ⟨true, Except.ok (Except.ok [])⟩)
      = { s with searchQuery := "",
                 error := some "No recipes found for your search query. Try again :)",
                 isLoading := false, page := 1 } := by
    unfold searchEffect
    rw [if_neg hq]
    rfl
  rw [h]
  exact ⟨rfl, rfl, rfl, rfl, by simp [SearchState.showsResults, truthy]⟩

/-- The search for `pizza` answered by an empty list of recipes, on a view
that shows two results of an earlier search. -/
theorem zero_results_is_error_witness :
    (searchEffect 10 sampleSearch
        (RaceOutcome.fetchResolved ⟨true, Except.ok (Except.ok [])⟩)).error
      = some "No recipes found for your search query. Try again :)" ∧
    (searchEffect 10 sampleSearch
        (RaceOutcome.fetchResolved ⟨true, Except.ok (Except.ok [])⟩)).showsError = true ∧
    (searchEffect 10 sampleSearch
        (RaceOutcome.fetchResolved ⟨true, Except.ok (Except.ok [])⟩)).isLoading = false ∧
    (searchEffect 10 sampleSearch
        (RaceOutcome.fetchResolved ⟨true, Except.ok (Except.ok [])⟩)).results
      = sampleSearch.results ∧
    (searchEffect 10 sampleSearch
        (RaceOutcome.fetchResolved ⟨true, Except.ok (Except.ok [])⟩)).showsResults = false :=
  zero_results_is_error 10 sampleSearch (by decide)

/-- After a timeout of a search the error state holds `undefined`, whatever
the state was: the rejection value of `wait` is a string, and a string has
no `message`. -/
theorem fetchData_timedOut {α : Type} (timeoutSec : ℕ) (s : SearchState α) :
    fetchData timeoutSec s RaceOutcome.timedOut
      = { s with searchQuery := "", error := none, isLoading := false, page := 1 } := by
  rfl

/-- After a timeout of a recipe request the error state holds `undefined`,
whatever the state was. -/
theorem fetchRecipeData_timedOut {α : Type} (timeoutSec : ℕ) (s : RecipeViewState α) :
    fetchRecipeData timeoutSec s RaceOutcome.timedOut
      = { s with error := none, isLoading := false } := by
  rfl

/-- C10 fails on the code: when `wait(10)` wins the race, the rejection value
is the string `Request took too long. Timeout after 10 seconds.`, and the
`catch` handler stores `err?.message`, which is `undefined` for a string. The
search view ends with loading cleared but with no error message rendered
(here it renders the results of the earlier search instead), and so does the
recipe view. -/
theorem timeout_error_is_undefined :
    wait 10 = Thrown.str "Request took too long. Timeout after 10 seconds." ∧
    (wait 10).message? = none ∧
    (searchEffect 10 sampleSearch RaceOutcome.timedOut).error = none ∧
    (searchEffect 10 sampleSearch RaceOutcome.timedOut).showsError = false ∧
    (searchEffect 10 sampleSearch RaceOutcome.timedOut).isLoading = false ∧
    (searchEffect 10 sampleSearch RaceOutcome.timedOut).showsResults = true ∧
    (recipeEffect 10 (some "a1") sampleRecipeView RaceOutcome.timedOut).error = none ∧
    (recipeEffect 10 (some "a1") sampleRecipeView RaceOutcome.timedOut).showsError = false ∧
    (recipeEffect 10 (some "a1") sampleRecipeView RaceOutcome.timedOut).isLoading = false := by
  refine ⟨by decide, rfl, rfl, rfl, rfl, by decide, rfl, rfl, rfl⟩

/-! ## Theorems: servings buttons -/

/-- One click keeps the servings at 1 or more. -/
theorem clickServings_pos (r : Recipe) (b : ServingsButton) (h : 1 ≤ r.servings) :
    1 ≤ (clickServings r b).servings := by
  cases b with
  | decrease =>
    by_cases h1 : r.servings > 1
    · simp only [clickServings, decreaseServings, if_pos h1, handleUpdateServings]
      omega
    · simp only [clickServings, decreaseServings, if_neg h1]
      exact h
  | increase =>
    have h0 : r.servings ≠ 0 := by omega
    simp only [clickServings, increaseServings, if_pos h0, handleUpdateServings]
    omega

/-- Any sequence of clicks keeps the servings at 1 or more. -/
theorem clickAll_pos (clicks : List ServingsButton) (r : Recipe) (h : 1 ≤ r.servings) :
    1 ≤ (clickAll r clicks).servings := by
  induction clicks generalizing r with
  | nil => exact h
  | cons b rest ih => exact ih (clickServings r b) (clickServings_pos r b h)

/-- C12: for a recipe with (integer) servings at least 1, after any number of
clicks on the decrease-servings and increase-servings buttons, in any order,
the servings are at least 1; the decrease handler leaves a recipe with
servings 1 as it is; and at every click of the sequence the recipe held then
has servings other than zero, so no call of `handleUpdateServings` divides by
zero. -/
theorem servings_stay_positive (r : Recipe) (clicks : List ServingsButton)
    (h : 1 ≤ r.servings) :
    1 ≤ (clickAll r clicks).servings ∧
    (r.servings = 1 → decreaseServings r = r) ∧
    (∀ before after : List ServingsButton, clicks = before ++ after →
      (clickAll r before).servings ≠ 0) := by
  refine ⟨clickAll_pos clicks r h, ?_, ?_⟩
  · intro h1
    have hn : ¬ r.servings > 1 := by omega
    simp only [decreaseServings, if_neg hn]
  · intro before after _
    have hb := clickAll_pos before r h
    omega

/-- Four clicks on `saltRecipe` (2 servings): decrease, decrease, increase,
decrease leave 1, 1, 2 and 1 servings. -/
theorem servings_stay_positive_witness :
    (clickAll saltRecipe [ServingsButton.decrease]).servings = 1 ∧
    (clickAll saltRecipe [ServingsButton.decrease, ServingsButton.decrease]).servings = 1 ∧
    (clickAll saltRecipe
      [ServingsButton.decrease, ServingsButton.decrease, ServingsButton.increase]).servings = 2 ∧
    1 ≤ (clickAll saltRecipe
      [ServingsButton.decrease, ServingsButton.decrease, ServingsButton.increase,
        ServingsButton.decrease]).servings :=
  ⟨rfl, rfl, rfl,
    (servings_stay_positive saltRecipe
      [ServingsButton.decrease, ServingsButton.decrease, ServingsButton.increase,
        ServingsButton.decrease] (by decide)).1⟩

/-! ## Theorems: requests and their cancellation -/

/-- The handler `fetchData` is its start followed by its end. -/
theorem fetchData_eq_start_end {α : Type} (timeoutSec : ℕ) (s : SearchState α)
    (outcome : RaceOutcome (Except Thrown (List (Obj α)))) :
    fetchData timeoutSec s outcome = fetchDataEnd timeoutSec (fetchDataStart s) outcome := rfl

/-- The end of `fetchData` on an `AbortError` rejection changes nothing. -/
theorem fetchDataEnd_abort {α : Type} (timeoutSec : ℕ) (s : SearchState α) :
    fetchDataEnd timeoutSec s (RaceOutcome.fetchRejected abortError) = s := rfl

/-- The end of `fetchData` leaves the query as it is or clears it. -/
theorem fetchDataEnd_query {α : Type} (timeoutSec : ℕ) (s : SearchState α)
    (outcome : RaceOutcome (Except Thrown (List (Obj α)))) :
    (fetchDataEnd timeoutSec s outcome).searchQuery = s.searchQuery ∨
    (fetchDataEnd timeoutSec s outcome).searchQuery = "" := by
  unfold fetchDataEnd
  split
  · right; rfl
  · split
    · right; rfl
    · left; rfl

/-- An abort keeps the number of requests. -/
theorem abortRequest_length (l : List SearchRequest) (i : ℕ) :
    (abortRequest l i).length = l.length := by
  unfold abortRequest
  split <;> simp

/-- After an abort every request is the one it was, or that one aborted. -/
theorem abortRequest_getElem? (l : List SearchRequest) (i j : ℕ) (r : SearchRequest)
    (h : (abortRequest l i)[j]? = some r) :
    ∃ r0, l[j]? = some r0 ∧ (r = r0 ∨ r = { r0 with aborted := true }) := by
  unfold abortRequest at h
  split at h
  · rename_i req hreq
    rw [List.getElem?_set] at h
    by_cases hij : i = j
    · subst hij
      rw [if_pos rfl] at h
      split at h
      · exact ⟨req, hreq, Or.inr (Option.some.inj h).symm⟩
      · exact absurd h (by simp)
    · rw [if_neg hij] at h
      exact ⟨r, h, Or.inl rfl⟩
  · exact ⟨r, h, Or.inl rfl⟩

/-- A cleanup keeps the number of requests. -/
theorem runCleanup_length (l : List SearchRequest) (c : Option ℕ) :
    (runCleanup l c).length = l.length := by
  cases c with
  | none => rfl
  | some i => exact abortRequest_length l i

/-- A cleanup keeps done requests done. -/
theorem runCleanup_done (l : List SearchRequest) (c : Option ℕ)
    (h : ∀ (j : ℕ) (r : SearchRequest), l[j]? = some r → r.done = true) :
    ∀ (j : ℕ) (r : SearchRequest), (runCleanup l c)[j]? = some r → r.done = true := by
  intro j r hr
  cases c with
  | none => exact h j r hr
  | some i =>
    obtain ⟨r0, hr0, hcase⟩ := abortRequest_getElem? l i j r hr
    rcases hcase with rfl | rfl
    · exact h j r hr0
    · simp [SearchRequest.done]

/-- The completion of a request when every request is done: the view stays
as it is and every request stays done. -/
theorem settleRequest_of_done {α : Type} (timeoutSec : ℕ) (sys : SearchSystem α) (i : ℕ)
    (network : RaceOutcome (Except Thrown (List (Obj α))))
    (h : ∀ (j : ℕ) (r : SearchRequest), sys.requests[j]? = some r → r.done = true) :
    (settleRequest timeoutSec sys i network).view = sys.view ∧
    ∀ (j : ℕ) (r : SearchRequest), (settleRequest timeoutSec sys i network).requests[j]? = some r → r.done = true := by
  unfold settleRequest
  split
  · exact ⟨rfl, h⟩
  · rename_i req hreq
    by_cases hs : req.settled = true
    · rw [if_pos hs]
      exact ⟨rfl, h⟩
    · rw [if_neg hs]
      have hd := h i req hreq
      have ha : req.aborted = true := by
        simp only [SearchRequest.done, Bool.or_eq_true] at hd
        rcases hd with hd | hd
        · exact hd
        · exact absurd hd hs
      simp only [ha, if_true, fetchDataEnd_abort, rerunEffect]
      refine ⟨trivial, ?_⟩
      intro j r hr
      rw [List.getElem?_set] at hr
      by_cases hij : i = j
      · rw [if_pos hij] at hr
        split at hr
        · rw [← Option.some.inj hr]
          simp [SearchRequest.done]
        · exact absurd hr (by simp)
      · rw [if_neg hij] at hr
        exact h j r hr

/-- Completions when every request is done leave the view as it is. -/
theorem runCompletions_of_done {α : Type} (timeoutSec : ℕ)
    (events : List (ℕ × RaceOutcome (Except Thrown (List (Obj α))))) (sys : SearchSystem α)
    (h : ∀ (j : ℕ) (r : SearchRequest), sys.requests[j]? = some r → r.done = true) :
    (runCompletions timeoutSec sys events).view = sys.view := by
  induction events generalizing sys with
  | nil => rfl
  | cons e rest ih =>
    obtain ⟨hv, hd⟩ := settleRequest_of_done timeoutSec sys e.1 e.2 h
    have h2 := ih (settleRequest timeoutSec sys e.1 e.2) hd
    simp only [runCompletions, List.foldl_cons] at h2 ⊢
    rw [h2, hv]

/-- The completion of a request other than `k` when every request other than
`k` is done: the view, the cleanup and request `k` stay as they are, and
every request other than `k` stays done. -/
theorem settleRequest_other {α : Type} (timeoutSec : ℕ) (sys : SearchSystem α) (i k : ℕ)
    (network : RaceOutcome (Except Thrown (List (Obj α)))) (hik : i ≠ k)
    (h : ∀ (j : ℕ) (r : SearchRequest), sys.requests[j]? = some r → j ≠ k → r.done = true) :
    (settleRequest timeoutSec sys i network).view = sys.view ∧
    (settleRequest timeoutSec sys i network).requests[k]? = sys.requests[k]? ∧
    ∀ (j : ℕ) (r : SearchRequest),
      (settleRequest timeoutSec sys i network).requests[j]? = some r → j ≠ k → r.done = true := by
  unfold settleRequest
  split
  · exact ⟨rfl, rfl, h⟩
  · rename_i req hreq
    by_cases hs : req.settled = true
    · rw [if_pos hs]
      exact ⟨rfl, rfl, h⟩
    · rw [if_neg hs]
      have hd := h i req hreq hik
      have ha : req.aborted = true := by
        simp only [SearchRequest.done, Bool.or_eq_true] at hd
        rcases hd with hd | hd
        · exact hd
        · exact absurd hd hs
      simp only [ha, if_true, fetchDataEnd_abort, rerunEffect]
      refine ⟨trivial, List.getElem?_set_ne hik, ?_⟩
      intro j r hr hjk
      rw [List.getElem?_set] at hr
      by_cases hij : i = j
      · rw [if_pos hij] at hr
        split at hr
        · rw [← Option.some.inj hr]
          simp [SearchRequest.done]
        · exact absurd hr (by simp)
      · rw [if_neg hij] at hr
        exact h j r hr hjk

/-- Completions of requests other than `k` when every request other than `k`
is done: the view and request `k` stay as they are, and every request other
than `k` stays done. -/
theorem runCompletions_other {α : Type} (timeoutSec : ℕ) (k : ℕ)
    (events : List (ℕ × RaceOutcome (Except Thrown (List (Obj α))))) (sys : SearchSystem α)
    (hev : ∀ e ∈ events, e.1 ≠ k)
    (h : ∀ (j : ℕ) (r : SearchRequest), sys.requests[j]? = some r → j ≠ k → r.done = true) :
    (runCompletions timeoutSec sys events).view = sys.view ∧
    (runCompletions timeoutSec sys events).requests[k]? = sys.requests[k]? ∧
    ∀ (j : ℕ) (r : SearchRequest),
      (runCompletions timeoutSec sys events).requests[j]? = some r → j ≠ k → r.done = true := by
  induction events generalizing sys with
  | nil => exact ⟨rfl, rfl, h⟩
  | cons e rest ih =>
    obtain ⟨hv, hk, hd⟩ := settleRequest_other timeoutSec sys e.1 k e.2
      (hev e (List.mem_cons_self e rest)) h
    obtain ⟨hv2, hk2, hd2⟩ := ih (settleRequest timeoutSec sys e.1 e.2)
      (fun x hx => hev x (List.mem_cons_of_mem e hx)) hd
    simp only [runCompletions, List.foldl_cons] at hv2 hk2 hd2 ⊢
    exact ⟨hv2.trans hv, hk2.trans hk, hd2⟩

/-- The completion of the one request that is not done: the view becomes what
the end of `fetchData` makes of it with what the network delivers, and every
request is done. -/
theorem settleRequest_pending {α : Type} (timeoutSec : ℕ) (sys : SearchSystem α) (k : ℕ)
    (network : RaceOutcome (Except Thrown (List (Obj α)))) (req : SearchRequest)
    (hk : sys.requests[k]? = some req) (ha : req.aborted = false) (hs : req.settled = false)
    (h : ∀ (j : ℕ) (r : SearchRequest), sys.requests[j]? = some r → j ≠ k → r.done = true) :
    (settleRequest timeoutSec sys k network).view = fetchDataEnd timeoutSec sys.view network ∧
    ∀ (j : ℕ) (r : SearchRequest),
      (settleRequest timeoutSec sys k network).requests[j]? = some r → r.done = true := by
  have hset : ∀ (j : ℕ) (r : SearchRequest),
      (sys.requests.set k { req with settled := true })[j]? = some r → r.done = true := by
    intro j r hr
    rw [List.getElem?_set] at hr
    by_cases hkj : k = j
    · rw [if_pos hkj] at hr
      split at hr
      · rw [← Option.some.inj hr]
        simp [SearchRequest.done]
      · exact absurd hr (by simp)
    · rw [if_neg hkj] at hr
      exact h j r hr (fun hjk => hkj hjk.symm)
  have hstep : settleRequest timeoutSec sys k network
      = rerunEffect { sys with requests := sys.requests.set k { req with settled := true } }
          (fetchDataEnd timeoutSec sys.view network) := by
    unfold settleRequest
    rw [hk]
    simp only [hs, ha, Bool.false_eq_true, if_false]
  rw [hstep]
  unfold rerunEffect
  by_cases hq : (fetchDataEnd timeoutSec sys.view network).searchQuery = sys.view.searchQuery
  · rw [if_pos hq]
    exact ⟨rfl, fun j r hr => hset j r hr⟩
  · rw [if_neg hq]
    have hempty : (fetchDataEnd timeoutSec sys.view network).searchQuery = "" := by
      rcases fetchDataEnd_query timeoutSec sys.view network with h1 | h1
      · exact absurd h1 hq
      · exact h1
    rw [if_pos hempty]
    exact ⟨rfl, fun j r hr => runCleanup_done _ _ hset j r hr⟩

/-- The run of the effect after an update to a new, non-empty query: the
cleanup, then a new request for the query. -/
theorem rerunEffect_new_query {α : Type} (sys : SearchSystem α) (view2 : SearchState α)
    (hne : view2.searchQuery ≠ sys.view.searchQuery) (hq : view2.searchQuery ≠ "") :
    rerunEffect sys view2
      = { view := fetchDataStart view2,
          requests := runCleanup sys.requests sys.cleanup
            ++ [{ query := view2.searchQuery, aborted := false, settled := false }],
          cleanup := some (runCleanup sys.requests sys.cleanup).length } := by
  unfold rerunEffect
  rw [if_neg hne, if_neg hq]

/-- The cleanup that aborts the last request. -/
theorem runCleanup_last (l : List SearchRequest) (req : SearchRequest) :
    runCleanup (l ++ [req]) (some l.length) = l ++ [{ req with aborted := true }] := by
  simp only [runCleanup, abortRequest, List.getElem?_concat_length]
  rw [List.set_append_right _ _ (le_refl _), Nat.sub_self]
  rfl

/-- The system after a first query `q1` and then a second query `q2`, both
non-empty, the first one other than the query held before and the second one
other than the first: the request of `q1` is aborted, the request of `q2` is
the last one. -/
theorem submitSearch_twice {α : Type} (sys : SearchSystem α) (q1 q2 : String)
    (hq1 : q1 ≠ "") (hq2 : q2 ≠ "") (h1 : q1 ≠ sys.view.searchQuery) (h12 : q2 ≠ q1) :
    submitSearch q2 (submitSearch q1 sys)
      = { view := fetchDataStart
            { fetchDataStart { sys.view with searchQuery := q1 } with searchQuery := q2 },
          requests := runCleanup sys.requests sys.cleanup
            ++ [{ query := q1, aborted := true, settled := false },
                { query := q2, aborted := false, settled := false }],
          cleanup := some (sys.requests.length + 1) } := by
  have hlen := runCleanup_length sys.requests sys.cleanup
  have hsys1 : submitSearch q1 sys
      = { view := fetchDataStart { sys.view with searchQuery := q1 },
          requests := runCleanup sys.requests sys.cleanup
            ++ [{ query := q1, aborted := false, settled := false }],
          cleanup := some (runCleanup sys.requests sys.cleanup).length } :=
    rerunEffect_new_query sys { sys.view with searchQuery := q1 } h1 hq1
  rw [hsys1]
  unfold submitSearch
  rw [rerunEffect_new_query _ _ h12 hq2]
  have hlast := runCleanup_last (runCleanup sys.requests sys.cleanup)
    { query := q1, aborted := false, settled := false }
  simp only [] at hlast ⊢
  rw [hlast]
  simp only [List.length_append, List.length_singleton, hlen,
    List.append_assoc, List.singleton_append]

/-- After the cleanup every request is done, when every request but the one
that the cleanup aborts was done. -/
theorem runCleanup_all_done (l : List SearchRequest) (c : Option ℕ)
    (h : ∀ (j : ℕ) (r : SearchRequest), l[j]? = some r → c ≠ some j → r.done = true) :
    ∀ (j : ℕ) (r : SearchRequest), (runCleanup l c)[j]? = some r → r.done = true := by
  intro j r hr
  cases c with
  | none => exact h j r hr (by simp)
  | some i =>
    simp only [runCleanup, abortRequest] at hr
    split at hr
    · rw [List.getElem?_set] at hr
      by_cases hij : i = j
      · rw [if_pos hij] at hr
        split at hr
        · rw [← Option.some.inj hr]
          simp [SearchRequest.done]
        · exact absurd hr (by simp)
      · rw [if_neg hij] at hr
        exact h j r hr (by simpa using hij)
    · rename_i hnone
      by_cases hij : i = j
      · subst hij
        rw [hnone] at hr
        exact absurd hr (by simp)
      · exact h j r hr (by simpa using hij)

/-- A run of the effect keeps every request but the one of the last effect
done. -/
theorem rerunEffect_past_done {α : Type} (sys : SearchSystem α) (view2 : SearchState α)
    (h : ∀ (j : ℕ) (r : SearchRequest),
      sys.requests[j]? = some r → sys.cleanup ≠ some j → r.done = true) :
    ∀ (j : ℕ) (r : SearchRequest), (rerunEffect sys view2).requests[j]? = some r →
      (rerunEffect sys view2).cleanup ≠ some j → r.done = true := by
  have hdone := runCleanup_all_done sys.requests sys.cleanup h
  unfold rerunEffect
  by_cases hq : view2.searchQuery = sys.view.searchQuery
  · rw [if_pos hq]
    exact h
  · rw [if_neg hq]
    by_cases he : view2.searchQuery = ""
    · rw [if_pos he]
      intro j r hr _
      exact hdone j r hr
    · rw [if_neg he]
      intro j r hr hc
      simp only [] at hr hc
      rw [List.getElem?_append] at hr
      split at hr
      · exact hdone j r hr
      · rename_i hge
        have hj : j ≠ (runCleanup sys.requests sys.cleanup).length := by
          intro hj
          exact hc (by rw [hj])
        have hnone : ([({ query := view2.searchQuery, aborted := false, settled := false } :
            SearchRequest)])[j - (runCleanup sys.requests sys.cleanup).length]? = none :=
          List.getElem?_eq_none (by simp only [List.length_singleton]; omega)
        rw [hnone] at hr
        exact absurd hr (by simp)

/-- In every system reached from one in which every request but the one of
the last effect is done, every request but the one of the last effect is
done: at most one request can still reach the view. -/
theorem reachable_past_done {α : Type} (timeoutSec : ℕ) (start sys : SearchSystem α)
    (hstart : ∀ (j : ℕ) (r : SearchRequest),
      start.requests[j]? = some r → start.cleanup ≠ some j → r.done = true)
    (hreach : Reachable timeoutSec start sys) :
    ∀ (j : ℕ) (r : SearchRequest),
      sys.requests[j]? = some r → sys.cleanup ≠ some j → r.done = true := by
  induction hreach with
  | start => exact hstart
  | submit query sys _ ih => exact rerunEffect_past_done sys _ ih
  | settle i network sys _ ih =>
    unfold settleRequest
    split
    · exact ih
    · rename_i req hreq
      by_cases hs : req.settled = true
      · rw [if_pos hs]
        exact ih
      · rw [if_neg hs]
        apply rerunEffect_past_done
        intro j r hr hc
        simp only [] at hr hc
        rw [List.getElem?_set] at hr
        by_cases hij : i = j
        · rw [if_pos hij] at hr
          split at hr
          · rw [← Option.some.inj hr]
            simp [SearchRequest.done]
          · exact absurd hr (by simp)
        · rw [if_neg hij] at hr
          exact ih j r hr hc

/-- C11, as stated, fails when the second query is the first one again: the
update leaves `searchQuery` as it is, so the effect does not run again, the
first request is not aborted, no second request is issued, and the
completion of the first request stores its results. -/
theorem same_query_counterexample :
    (submitSearch "pizza" mountedSearch).requests
      = [{ query := "pizza", aborted := false, settled := false }] ∧
    (submitSearch "pizza" (submitSearch "pizza" mountedSearch)).requests
      = [{ query := "pizza", aborted := false, settled := false }] ∧
    (submitSearch "pizza" (submitSearch "pizza" mountedSearch)).view.results = [] ∧
    (settleRequest 10 (submitSearch "pizza" (submitSearch "pizza" mountedSearch)) 0
        pizzaResponse).view.results = [[("id", "p1"), ("imageUrl", "u")]] ∧
    (settleRequest 10 (submitSearch "pizza" (submitSearch "pizza" mountedSearch)) 0
        pizzaResponse).view.results
      ≠ (submitSearch "pizza" (submitSearch "pizza" mountedSearch)).view.results := by
  refine ⟨rfl, rfl, rfl, rfl, ?_⟩
  intro h
  have h2 : ([[("id", "p1"), ("imageUrl", "u")]] : List (Obj String)) = [] := h
  exact absurd h2 (by simp)

/-- C11 (amended): let a first non-empty query `q1` be submitted, other than
the query held then, and before its request completes a second non-empty
query `q2` other than `q1`, in a view where every request but the one of the
last effect is aborted or completed. Then the request of `q1` is aborted and
the request of `q2` is not; the completion of the first request, whatever the
network delivers for it, leaves the view (stored results and error state
included) as it is; so do any completions that do not include the second
request; and in every sequence of completions that includes the second
request the view is what the end of `fetchData` of the second request makes
of it, so only the second query's results are stored. -/
theorem stale_search_discarded {α : Type} (timeoutSec : ℕ) (sys : SearchSystem α)
    (q1 q2 : String)
    (hpast : ∀ (j : ℕ) (r : SearchRequest),
      sys.requests[j]? = some r → sys.cleanup ≠ some j → r.done = true)
    (hq1 : q1 ≠ "") (hq2 : q2 ≠ "") (h1 : q1 ≠ sys.view.searchQuery) (h12 : q2 ≠ q1) :
    (submitSearch q2 (submitSearch q1 sys)).requests[sys.requests.length]?
      = some { query := q1, aborted := true, settled := false } ∧
    (submitSearch q2 (submitSearch q1 sys)).requests[sys.requests.length + 1]?
      = some { query := q2, aborted := false, settled := false } ∧
    (∀ network1 : RaceOutcome (Except Thrown (List (Obj α))),
      (settleRequest timeoutSec (submitSearch q2 (submitSearch q1 sys)) sys.requests.length
          network1).view
        = (submitSearch q2 (submitSearch q1 sys)).view) ∧
    (∀ events : List (ℕ × RaceOutcome (Except Thrown (List (Obj α)))),
      (∀ e ∈ events, e.1 ≠ sys.requests.length + 1) →
      (runCompletions timeoutSec (submitSearch q2 (submitSearch q1 sys)) events).view
        = (submitSearch q2 (submitSearch q1 sys)).view) ∧
    (∀ (before after : List (ℕ × RaceOutcome (Except Thrown (List (Obj α)))))
      (network2 : RaceOutcome (Except Thrown (List (Obj α)))),
      (∀ e ∈ before, e.1 ≠ sys.requests.length + 1) →
      (runCompletions timeoutSec (submitSearch q2 (submitSearch q1 sys))
          (before ++ (sys.requests.length + 1, network2) :: after)).view
        = fetchDataEnd timeoutSec (submitSearch q2 (submitSearch q1 sys)).view network2) := by
  have hlen := runCleanup_length sys.requests sys.cleanup
  have hdone := runCleanup_all_done sys.requests sys.cleanup hpast
  have hsys2 := submitSearch_twice sys q1 q2 hq1 hq2 h1 h12
  have hget1 : (submitSearch q2 (submitSearch q1 sys)).requests[sys.requests.length]?
      = some { query := q1, aborted := true, settled := false } := by
    rw [hsys2]
    simp only []
    rw [List.getElem?_append_right (by omega), hlen, Nat.sub_self]
    rfl
  have hget2 : (submitSearch q2 (submitSearch q1 sys)).requests[sys.requests.length + 1]?
      = some { query := q2, aborted := false, settled := false } := by
    rw [hsys2]
    simp only []
    rw [List.getElem?_append_right (by omega), hlen, Nat.add_sub_cancel_left]
    rfl
  have hothers : ∀ (j : ℕ) (r : SearchRequest),
      (submitSearch q2 (submitSearch q1 sys)).requests[j]? = some r →
      j ≠ sys.requests.length + 1 → r.done = true := by
    intro j r hr hj
    rw [hsys2] at hr
    simp only [] at hr
    rw [List.getElem?_append] at hr
    split at hr
    · exact hdone j r hr
    · rename_i hge
      rw [hlen] at hge
      have hj0 : j - (runCleanup sys.requests sys.cleanup).length = 0 ∨
          1 < j - (runCleanup sys.requests sys.cleanup).length ∨
          j - (runCleanup sys.requests sys.cleanup).length = 1 := by omega
      rcases hj0 with h0 | h0 | h0
      · rw [h0] at hr
        rw [← Option.some.inj hr]
        rfl
      · have hnone : ([({ query := q1, aborted := true, settled := false } : SearchRequest),
            { query := q2, aborted := false, settled := false }])[
              j - (runCleanup sys.requests sys.cleanup).length]? = none :=
          List.getElem?_eq_none (by simpa using h0)
        rw [hnone] at hr
        exact absurd hr (by simp)
      · rw [hlen] at h0
        omega
  refine ⟨hget1, hget2, ?_, ?_, ?_⟩
  · intro network1
    exact (settleRequest_other timeoutSec _ sys.requests.length (sys.requests.length + 1)
      network1 (by omega) hothers).1
  · intro events hev
    exact (runCompletions_other timeoutSec (sys.requests.length + 1) events _ hev hothers).1
  · intro before after network2 hev
    obtain ⟨hv, hk, hd⟩ :=
      runCompletions_other timeoutSec (sys.requests.length + 1) before _ hev hothers
    obtain ⟨hv2, hd2⟩ := settleRequest_pending timeoutSec
      (runCompletions timeoutSec (submitSearch q2 (submitSearch q1 sys)) before)
      (sys.requests.length + 1) network2 { query := q2, aborted := false, settled := false }
      (hk.trans hget2) rfl rfl hd
    have hv3 := runCompletions_of_done timeoutSec after _ hd2
    have hsplit : runCompletions timeoutSec (submitSearch q2 (submitSearch q1 sys))
        (before ++ (sys.requests.length + 1, network2) :: after)
        = runCompletions timeoutSec
            (settleRequest timeoutSec
              (runCompletions timeoutSec (submitSearch q2 (submitSearch q1 sys)) before)
              (sys.requests.length + 1) network2) after := by
      simp only [runCompletions, List.foldl_append, List.foldl_cons]
    rw [hsplit, hv3, hv2, hv]

/-- The search for `pizza` followed, before it completes, by the search for
`pasta`, on the view as mounted: the completion of the `pizza` request with a
successful response stores nothing, and once the `pasta` request completes,
before or after it, the stored results are the ones of `pasta`. -/
theorem stale_search_discarded_witness :
    (submitSearch "pasta" (submitSearch "pizza" mountedSearch)).requests
      = [{ query := "pizza", aborted := true, settled := false },
         { query := "pasta", aborted := false, settled := false }] ∧
    (settleRequest 10 (submitSearch "pasta" (submitSearch "pizza" mountedSearch)) 0
        pizzaResponse).view
      = (submitSearch "pasta" (submitSearch "pizza" mountedSearch)).view ∧
    (runCompletions 10 (submitSearch "pasta" (submitSearch "pizza" mountedSearch))
        ([(0, pizzaResponse)] ++ (1, pastaResponse) :: [])).view.results
      = [[("id", "q7"), ("title", "Pasta")]] ∧
    (runCompletions 10 (submitSearch "pasta" (submitSearch "pizza" mountedSearch))
        ([] ++ (1, pastaResponse) :: [(0, pizzaResponse)])).view.results
      = [[("id", "q7"), ("title", "Pasta")]] := by
  have h := stale_search_discarded 10 mountedSearch "pizza" "pasta"
    (fun j r hr _ => absurd hr (by simp [mountedSearch]))
    (by decide) (by decide) (by decide) (by decide)
  refine ⟨rfl, h.2.2.1 pizzaResponse, ?_, ?_⟩
  · have h5 := h.2.2.2.2 [(0, pizzaResponse)] [] pastaResponse
      (by intro e he; simp only [List.mem_singleton] at he; subst he; decide)
    rw [show mountedSearch.requests.length + 1 = 1 from rfl] at h5
    rw [h5]
    rfl
  · have h5 := h.2.2.2.2 [] [(0, pizzaResponse)] pastaResponse
      (by intro e he; exact absurd he (List.not_mem_nil e))
    rw [show mountedSearch.requests.length + 1 = 1 from rfl] at h5
    rw [h5]
    rfl

end RecipeApp
